import Mathlib

/-
Verification of the MyPromise library (src/unnamed/part_000).

The JavaScript class is embedded as a heap-based small-step interpreter:
each `MyPromise` object is a `PromObj` in the heap, closures stored in the
callback arrays are defunctionalized (`Callback` / `Handler`), and the
per-combinator closure variables (`results`, `resultCount`) live in the
heap's `combs` association list keyed by the combinator's outer promise id.
Exceptions (`throw` / `try`-`catch`) are modelled by the `Outcome` type and
threaded explicitly; heap mutations made before a throw persist, exactly as
in JavaScript.  Recursion through the heap is not structurally decreasing
(a promise's callback can settle another promise), so every interpreter
entry point consumes one unit of `fuel`; `Outcome.nofuel` never occurs in
any proved final result.
-/

/- States of a promise: STATES.PENDING / FULFILLED / REJECTED.
   (STATES.SETTLED exists in the source but is never used.) -/
inductive PState where
  | pending
  | fulfilled
  | rejected
deriving DecidableEq, Repr

/- Runtime values.  `prom p` is a reference to the MyPromise object at heap
   index `p` (the `value instanceof MyPromise` check is a match on this
   constructor).  `record s v` models the `{status: s, value/reason: v}`
   objects built by allSettled.  `uncaughtError m` models a thrown
   `UncaughtPromiseError` whose `message` is `m`; `refError` models the
   ReferenceError raised by reading the undeclared variable `value`. -/
inductive JSVal where
  | undef
  | num (n : Int)
  | str (s : String)
  | prom (pid : Nat)
  | arr (xs : List JSVal)
  | record (status : String) (payload : JSVal)
  | uncaughtError (msg : JSVal)
  | refError

def JSVal.isProm : JSVal → Bool
  | .prom _ => true
  | _ => false

/- Defunctionalized user / library handler functions.
   hconst v      : fun _ => v
   hident        : fun x => x
   hthrow e      : fun _ => throw e
   huser t       : an opaque user handler (returns undefined); the tag `t`
                   only identifies it in the invocation log
   entryS p      : the bound method  p.#onSuccess
   entryF p      : the bound method  p.#onFailed
   allThen o i n / allCatch o           : the closures created in MyPromise.all
   allSettledThen o i n / allSettledCatch o i n : closures of allSettled
   anyThen o / anyCatch o i n           : closures of MyPromise.any
   (`o` = outer promise id, `i` = forEach index, `n` = promiseArray.length) -/
inductive Handler where
  | hconst (v : JSVal)
  | hident
  | hthrow (e : JSVal)
  | huser (tag : Nat)
  | entryS (pid : Nat)
  | entryF (pid : Nat)
  | allThen (outer idx len : Nat)
  | allCatch (outer : Nat)
  | allSettledThen (outer idx len : Nat)
  | allSettledCatch (outer idx len : Nat)
  | anyThen (outer : Nat)
  | anyCatch (outer idx len : Nat)

/- The closures pushed onto #thenCbs / #catchCbs by `then`.  `tgt` is the
   promise whose resolve/reject entry points the wrapper captures (the new
   promise returned by `then`); `hnd` is the user callback (`none` when the
   corresponding argument of `then` was absent/null). -/
inductive Callback where
  | thenWrapper (hnd : Option Handler) (tgt : Nat)
  | catchWrapper (hnd : Option Handler) (tgt : Nat)

/- One MyPromise object: #state, #value, #thenCbs, #catchCbs.
   The FRONT of each list is the top of the stack: `push` conses and the
   pop-based draining of #runCallbacks removes from the front (isomorphic
   to the source's push/pop at the array's tail). -/
structure PromObj where
  st : PState := .pending
  val : JSVal := .undef
  thenCbs : List Callback := []
  catchCbs : List Callback := []

/- The heap: `objs` indexes promise objects by id; `combs` holds, per
   combinator call (keyed by its outer promise id), the closure variables
   `(results, resultCount)`; `log` records every handler invocation
   (handler, argument), newest first, purely for observation. -/
structure Heap where
  objs : List PromObj := []
  combs : List (Nat × (List JSVal × Nat)) := []
  log : List (Handler × JSVal) := []

def emptyHeap : Heap := {}

def getObj (h : Heap) (p : Nat) : PromObj := h.objs.getD p {}

def setObj (h : Heap) (p : Nat) (o : PromObj) : Heap :=
  { h with objs := h.objs.set p o }

/- `new MyPromise(...)`: allocate a fresh pending object, return its id. -/
def allocP (h : Heap) : Heap × Nat :=
  ({ h with objs := h.objs ++ [{}] }, h.objs.length)

def getComb (h : Heap) (p : Nat) : List JSVal × Nat :=
  (h.combs.lookup p).getD ([], 0)

def setComb (h : Heap) (p : Nat) (c : List JSVal × Nat) : Heap :=
  { h with combs := (p, c) :: h.combs }

/- `results[i] = v` on a JS array: assign, growing with holes (read back as
   undefined) when `i` is past the end. -/
def setIdxGrow (xs : List JSVal) (i : Nat) (v : JSVal) : List JSVal :=
  if i < xs.length then xs.set i v
  else xs ++ List.replicate (i - xs.length) .undef ++ [v]

/- The resolver procedures passed to the constructor that the claims need:
   rwith v   : (resolve, reject) => resolve(v)
   rejwith e : (resolve, reject) => reject(e)
   rthrow e  : (resolve, reject) => { throw e }
   rnothing  : (resolve, reject) => {} -/
inductive Resolver where
  | rwith (v : JSVal)
  | rejwith (e : JSVal)
  | rthrow (e : JSVal)
  | rnothing

inductive CombKind where
  | allK
  | allSettledK
  | raceK
  | anyK
deriving DecidableEq, Repr

/- Result of running a piece of code: normal completion with a value,
   a thrown value, or fuel exhaustion (never present in proved results). -/
inductive Outcome where
  | ok (v : JSVal)
  | thrown (e : JSVal)
  | nofuel

/- JS functions whose body ends without `return x` return undefined. -/
def unitize : Outcome → Outcome
  | .ok _ => .ok .undef
  | r => r

/- Sequencing combinators for results.  `retU x` is a call used as a
   statement (its value replaced by undefined).  `bindOk x k` continues with
   `k` on normal completion and propagates a throw (or fuel exhaustion)
   unchanged.  `tryC x hdl` is `try { x } catch (e) { hdl e }`. -/
def retU (x : Heap × Outcome) : Heap × Outcome := (x.1, unitize x.2)

def bindOk (x : Heap × Outcome) (k : Heap → JSVal → Heap × Outcome) :
    Heap × Outcome :=
  match x with
  | (h, .ok v) => k h v
  | x => x

def tryC (x : Heap × Outcome) (hdl : Heap → JSVal → Heap × Outcome) :
    Heap × Outcome :=
  match x with
  | (h, .thrown e) => hdl h e
  | x => x

/- The code being executed, one constructor per function of the source:
   success p v        = p.#onSuccess(v)            (lines 46-63)
   failed p e         = p.#onFailed(e)             (lines 65-81)
   drain p true/false = p.#runCallbacks(#thenCbs / #catchCbs)  (87-92)
   invokeCb cb arg    = cb(arg) for a stored wrapper closure   (99-134)
   invokeH hd arg     = hd(arg) for a handler function
   thenC p t c        = p.then(t, c)               (95-144)
   construct r        = new MyPromise(r)           (36-44)
   comb k ps          = MyPromise.all/allSettled/race/any(ps)  (186-272)
   combL k o n i ps   = the remainder of the forEach loop of `comb`,
                        at index i, with outer promise o and n inputs. -/
inductive Call where
  | success (p : Nat) (v : JSVal)
  | failed (p : Nat) (e : JSVal)
  | drain (p : Nat) (isThen : Bool)
  | invokeCb (cb : Callback) (arg : JSVal)
  | invokeH (hd : Handler) (arg : JSVal)
  | thenC (p : Nat) (tCb cCb : Option Handler)
  | construct (r : Resolver)
  | comb (k : CombKind) (ps : List Nat)
  | combL (k : CombKind) (outer n i : Nat) (ps : List Nat)

/- The interpreter.  Each case is a line-by-line transcription of the
   corresponding source function; see the comments on `Call`. -/
def exec : Nat → Call → Heap → Heap × Outcome
  | 0, _, h => (h, .nofuel)
  | f + 1, c, h =>
    match c with
    | .success p v =>
      let o := getObj h p
      -- if (this.#state !== STATES.PENDING) return;
      if o.st ≠ .pending then (h, .ok .undef)
      else
        match v with
        | .prom g =>
          -- value.then(this.#onSuccess, this.#onFailed); return;
          retU (exec f (.thenC g (some (.entryS p)) (some (.entryF p))) h)
        | _ =>
          -- this.#state = FULFILLED; this.#value = value; run thenCbs
          retU (exec f (.drain p true) (setObj h p { o with st := .fulfilled, val := v }))
    | .failed p e =>
      let o := getObj h p
      if o.st ≠ .pending then (h, .ok .undef)
      else
        match e with
        | .prom _ =>
          -- `value.then(this.#onSuccess, this.#onFailed)`: the variable
          -- `value` is not in scope in #onFailed, so this line raises a
          -- ReferenceError before any state change.
          (h, .thrown .refError)
        | _ =>
          let o2 := { o with st := .rejected, val := e }
          let h := setObj h p o2
          -- if (this.#catchCbs.length === 0) throw new UncaughtPromiseError("Unhandle catch");
          if o2.catchCbs.length = 0 then
            (h, .thrown (.uncaughtError (.str "Unhandle catch")))
          else
            retU (exec f (.drain p false) h)
    | .drain p isThen =>
      let o := getObj h p
      match (if isThen then o.thenCbs else o.catchCbs) with
      | [] => (h, .ok .undef)
      | cb :: rest =>
        -- const cb = cbArray.pop(); cb(this.#value);
        let h := setObj h p
          (if isThen then { o with thenCbs := rest } else { o with catchCbs := rest })
        bindOk (exec f (.invokeCb cb o.val) h) fun h _ =>
          exec f (.drain p isThen) h
    | .invokeCb cb arg =>
      match cb with
      | .thenWrapper none tgt =>
        -- if (!thenCb) { resolve(result); return; }
        retU (exec f (.success tgt arg) h)
      | .thenWrapper (some hd) tgt =>
        -- try { resolve(thenCb(result)); } catch (e) { reject(e); }
        retU (tryC
          (bindOk (exec f (.invokeH hd arg) h) fun h v => exec f (.success tgt v) h)
          fun h e => exec f (.failed tgt e) h)
      | .catchWrapper none tgt =>
        -- if (!catchCb) { reject(result); return; }
        retU (exec f (.failed tgt arg) h)
      | .catchWrapper (some hd) tgt =>
        -- try { resolve(catchCb(result)); } catch (e) { reject(e); }
        retU (tryC
          (bindOk (exec f (.invokeH hd arg) h) fun h v => exec f (.success tgt v) h)
          fun h e => exec f (.failed tgt e) h)
    | .invokeH hd arg =>
      let h := { h with log := (hd, arg) :: h.log }
      match hd with
      | .hconst v => (h, .ok v)
      | .hident => (h, .ok arg)
      | .hthrow e => (h, .thrown e)
      | .huser _ => (h, .ok .undef)
      | .entryS p => retU (exec f (.success p arg) h)
      | .entryF p => retU (exec f (.failed p arg) h)
      | .allThen outer idx len =>
        -- results[index] = value; resultCount += 1;
        -- if (resultCount === promiseArray.length) resolve(results);
        let (rs, cnt) := getComb h outer
        let rs := setIdxGrow rs idx arg
        let cnt := cnt + 1
        let h := setComb h outer (rs, cnt)
        if cnt = len then retU (exec f (.success outer (.arr rs)) h)
        else (h, .ok .undef)
      | .allCatch outer =>
        -- (e) => { reject(e); }
        retU (exec f (.failed outer arg) h)
      | .allSettledThen outer idx len =>
        -- results[index] = { status: "fulfilled", value };  (no count change:
        -- allSettled increments resultCount in the forEach body instead)
        let (rs, cnt) := getComb h outer
        let rs := setIdxGrow rs idx (.record "fulfilled" arg)
        let h := setComb h outer (rs, cnt)
        if cnt = len then retU (exec f (.success outer (.arr rs)) h)
        else (h, .ok .undef)
      | .allSettledCatch outer idx len =>
        let (rs, cnt) := getComb h outer
        let rs := setIdxGrow rs idx (.record "rejected" arg)
        let h := setComb h outer (rs, cnt)
        if cnt = len then retU (exec f (.success outer (.arr rs)) h)
        else (h, .ok .undef)
      | .anyThen outer =>
        -- (value) => { resolve(value); }
        retU (exec f (.success outer arg) h)
      | .anyCatch outer _idx _len =>
        -- (e) => { resultCount++; results[index] = value; ... }
        -- `value` is not in scope here: after the increment the assignment
        -- raises a ReferenceError, so the completion check is unreachable.
        let (rs, cnt) := getComb h outer
        let h := setComb h outer (rs, cnt + 1)
        (h, .thrown .refError)
    | .thenC p tCb cCb =>
      -- return new MyPromise((resolve, reject) => { ...push wrappers...;
      --   if settled, run the matching callback array });
      let (h, child) := allocP h
      let o := getObj h p
      let h := setObj h p
        { o with thenCbs := .thenWrapper tCb child :: o.thenCbs,
                 catchCbs := .catchWrapper cCb child :: o.catchCbs }
      let x :=
        match (getObj h p).st with
        | .fulfilled => exec f (.drain p true) h
        | .rejected => exec f (.drain p false) h
        | .pending => (h, .ok .undef)
      -- the constructor try/catch around the resolver body; on normal
      -- completion the new promise is returned
      bindOk (tryC x fun h e => exec f (.failed child e) h) fun h _ =>
        (h, .ok (.prom child))
    | .construct r =>
      let (h, p) := allocP h
      let x :=
        match r with
        | .rwith v => exec f (.success p v) h
        | .rejwith e => exec f (.failed p e) h
        | .rthrow e => (h, .thrown e)
        | .rnothing => (h, .ok .undef)
      bindOk (tryC x fun h e => exec f (.failed p e) h) fun h _ =>
        (h, .ok (.prom p))
    | .comb k ps =>
      let (h, outer) := allocP h
      let h :=
        match k with
        | .raceK => h
        | _ => setComb h outer ([], 0)
      bindOk (tryC (exec f (.combL k outer ps.length 0 ps) h)
          fun h e => exec f (.failed outer e) h) fun h _ =>
        (h, .ok (.prom outer))
    | .combL k outer n i ps =>
      match ps with
      | [] => (h, .ok .undef)
      | p :: rest =>
        let x :=
          match k with
          | .allK =>
            -- promise.then((value) => {...}).catch((e) => { reject(e); })
            bindOk (exec f (.thenC p (some (.allThen outer i n)) none) h) fun h v =>
              match v with
              | .prom child => exec f (.thenC child none (some (.allCatch outer))) h
              | v => (h, .ok v)
          | .allSettledK =>
            -- resultCount++ happens here, in the forEach body itself
            let (rs, cnt) := getComb h outer
            let h := setComb h outer (rs, cnt + 1)
            bindOk (exec f (.thenC p (some (.allSettledThen outer i n)) none) h) fun h v =>
              match v with
              | .prom child =>
                exec f (.thenC child none (some (.allSettledCatch outer i n))) h
              | v => (h, .ok v)
          | .raceK =>
            -- promise.then(resolve).catch(reject)
            bindOk (exec f (.thenC p (some (.entryS outer)) none) h) fun h v =>
              match v with
              | .prom child => exec f (.thenC child none (some (.entryF outer))) h
              | v => (h, .ok v)
          | .anyK =>
            bindOk (exec f (.thenC p (some (.anyThen outer)) none) h) fun h v =>
              match v with
              | .prom child =>
                exec f (.thenC child none (some (.anyCatch outer i n))) h
              | v => (h, .ok v)
        bindOk x fun h _ => exec f (.combL k outer n (i + 1) rest) h

/- Reduction rules for the combinators. -/

@[simp] theorem retU_pair (h : Heap) (r : Outcome) : retU (h, r) = (h, unitize r) := rfl

@[simp] theorem unitize_ok (v : JSVal) : unitize (.ok v) = .ok .undef := rfl

@[simp] theorem unitize_thrown (e : JSVal) : unitize (.thrown e) = .thrown e := rfl

@[simp] theorem bindOk_ok (h : Heap) (v : JSVal) (k : Heap → JSVal → Heap × Outcome) :
    bindOk (h, .ok v) k = k h v := rfl

@[simp] theorem bindOk_thrown (h : Heap) (e : JSVal) (k : Heap → JSVal → Heap × Outcome) :
    bindOk (h, .thrown e) k = (h, .thrown e) := rfl

@[simp] theorem tryC_ok (h : Heap) (v : JSVal) (hdl : Heap → JSVal → Heap × Outcome) :
    tryC (h, .ok v) hdl = (h, .ok v) := rfl

@[simp] theorem tryC_thrown (h : Heap) (e : JSVal) (hdl : Heap → JSVal → Heap × Outcome) :
    tryC (h, .thrown e) hdl = hdl h e := rfl

/- Named wrappers matching the source API surface. -/

def MyPromise.onSuccess (f : Nat) (p : Nat) (v : JSVal) (h : Heap) : Heap × Outcome :=
  exec f (.success p v) h

def MyPromise.onFailed (f : Nat) (p : Nat) (e : JSVal) (h : Heap) : Heap × Outcome :=
  exec f (.failed p e) h

def MyPromise.construct (f : Nat) (r : Resolver) (h : Heap) : Heap × Outcome :=
  exec f (.construct r) h

def MyPromise.thenP (f : Nat) (p : Nat) (tCb cCb : Option Handler) (h : Heap) :
    Heap × Outcome :=
  exec f (.thenC p tCb cCb) h

def MyPromise.catchP (f : Nat) (p : Nat) (cb : Handler) (h : Heap) : Heap × Outcome :=
  exec f (.thenC p none (some cb)) h

def MyPromise.all (f : Nat) (ps : List Nat) (h : Heap) : Heap × Outcome :=
  exec f (.comb .allK ps) h

def MyPromise.allSettled (f : Nat) (ps : List Nat) (h : Heap) : Heap × Outcome :=
  exec f (.comb .allSettledK ps) h

def MyPromise.race (f : Nat) (ps : List Nat) (h : Heap) : Heap × Outcome :=
  exec f (.comb .raceK ps) h

def MyPromise.anyP (f : Nat) (ps : List Nat) (h : Heap) : Heap × Outcome :=
  exec f (.comb .anyK ps) h

def MyPromise.resolveS (f : Nat) (v : JSVal) (h : Heap) : Heap × Outcome :=
  exec f (.construct (.rwith v)) h

def MyPromise.rejectS (f : Nat) (e : JSVal) (h : Heap) : Heap × Outcome :=
  exec f (.construct (.rejwith e)) h

/- Basic heap lemmas. -/

theorem getObj_setObj_self (h : Heap) (p : Nat) (o : PromObj)
    (hp : p < h.objs.length) : getObj (setObj h p o) p = o := by
  simp [getObj, setObj, List.getD_eq_getElem?_getD, List.getElem?_set, hp]

theorem getObj_setObj_ne (h : Heap) (p q : Nat) (o : PromObj) (hq : q ≠ p) :
    getObj (setObj h p o) q = getObj h q := by
  have hpq : p ≠ q := fun hh => hq hh.symm
  simp [getObj, setObj, List.getD_eq_getElem?_getD, List.getElem?_set, hpq]

theorem getObj_append_fresh (h : Heap) (o : PromObj) :
    getObj { h with objs := h.objs ++ [o] } h.objs.length = o := by
  simp [getObj, List.getD_eq_getElem?_getD, List.getElem?_concat_length]

theorem getObj_append_old (h : Heap) (o : PromObj) (q : Nat)
    (hq : q ≠ h.objs.length) :
    getObj { h with objs := h.objs ++ [o] } q = getObj h q := by
  rcases Nat.lt_or_ge q h.objs.length with hlt | hge
  · simp [getObj, List.getD_eq_getElem?_getD, List.getElem?_append_left hlt]
  · have hgt : h.objs.length < q := lt_of_le_of_ne hge (fun hh => hq hh.symm)
    have e1 : h.objs[q]? = none := List.getElem?_eq_none (le_of_lt hgt)
    have e2 : (h.objs ++ [o])[q]? = none := by
      rw [List.getElem?_append_right (le_of_lt hgt)]
      exact List.getElem?_eq_none (by simp; omega)
    simp [getObj, List.getD_eq_getElem?_getD, e1, e2]

theorem setObj_append (h : Heap) (o o2 : PromObj) :
    setObj { h with objs := h.objs ++ [o] } h.objs.length o2 =
      { h with objs := h.objs ++ [o2] } := by
  simp [setObj, List.set_append_right _ _ (Nat.le_refl _)]

/- The settle-once guard: calls on an already settled promise return
   immediately with no effect at all. -/

theorem success_settled (f p : Nat) (v : JSVal) (h : Heap)
    (hs : (getObj h p).st ≠ .pending) :
    exec (f + 1) (.success p v) h = (h, .ok .undef) := by
  simp [exec, hs]

theorem failed_settled (f p : Nat) (e : JSVal) (h : Heap)
    (hs : (getObj h p).st ≠ .pending) :
    exec (f + 1) (.failed p e) h = (h, .ok .undef) := by
  simp [exec, hs]

/- Rejecting a pending promise with no catch callbacks: state and value are
   written, then an UncaughtPromiseError with fixed message is thrown. -/

theorem onFailed_unhandled (f p : Nat) (e : JSVal) (h : Heap)
    (hp : (getObj h p).st = .pending) (hc : (getObj h p).catchCbs = [])
    (he : e.isProm = false) :
    exec (f + 1) (.failed p e) h =
      (setObj h p { getObj h p with st := .rejected, val := e },
       .thrown (.uncaughtError (.str "Unhandle catch"))) := by
  cases e <;> simp_all [exec, JSVal.isProm]

/-- C1: for every heap, every future F and any payloads, once F has settled
(state is Fulfilled or Rejected, i.e. not Pending), a further call to F's
fulfill entry point (`#onSuccess`) or reject entry point (`#onFailed`) leaves
the entire heap unchanged — F's state, stored value and callback queues are
untouched and the invocation log does not grow, so no callback is invoked —
and the call returns normally. -/
theorem C1_settled_calls_are_noops (f p : Nat) (v e : JSVal) (h : Heap)
    (hs : (getObj h p).st ≠ .pending) :
    MyPromise.onSuccess (f + 1) p v h = (h, .ok .undef) ∧
    MyPromise.onFailed (f + 1) p e h = (h, .ok .undef) :=
  ⟨success_settled f p v h hs, failed_settled f p e h hs⟩

def settledHeap : Heap := { objs := [{ st := .fulfilled, val := .num 1 }] }

/-- Witness for C1: a concrete fulfilled future; later fulfill/reject calls
return with the heap unchanged. -/
theorem C1_settled_calls_are_noops_witness :
    (getObj settledHeap 0).st ≠ .pending ∧
    (MyPromise.onSuccess 1 0 (.num 2) settledHeap = (settledHeap, .ok .undef) ∧
     MyPromise.onFailed 1 0 (.str "late") settledHeap = (settledHeap, .ok .undef)) :=
  ⟨by decide, C1_settled_calls_are_noops 0 0 (.num 2) (.str "late") settledHeap (by decide)⟩

/-- C3: the code does NOT delegate to a future passed to the reject entry
point.  For every heap and every pending future F, calling `#onFailed` with a
future G as the error payload raises a ReferenceError (the branch reads the
undeclared variable `value`) and leaves the heap completely unchanged: F stays
Pending, no continuation is registered on G, and G's settlement is never
adopted.  This contradicts the claimed delegation behaviour. -/
theorem C3_reject_with_future_raises_ReferenceError (f p g : Nat) (h : Heap)
    (hp : (getObj h p).st = .pending) :
    MyPromise.onFailed (f + 1) p (.prom g) h = (h, .thrown .refError) := by
  simp [MyPromise.onFailed, exec, hp]

def c3Heap : Heap := { objs := [{}, {}] }

/-- Witness for C3: concrete pending futures F (id 0) and G (id 1); rejecting
F with G raises a ReferenceError and changes nothing. -/
theorem C3_reject_with_future_raises_ReferenceError_witness :
    (getObj c3Heap 0).st = .pending ∧
    MyPromise.onFailed 1 0 (.prom 1) c3Heap = (c3Heap, .thrown .refError) :=
  ⟨rfl, C3_reject_with_future_raises_ReferenceError 0 0 1 c3Heap rfl⟩

/- One-step unfolding of the constructor for the two resolvers compared in
   C2; both are definitional. -/

theorem construct_rthrow_step (f : Nat) (e : JSVal) (h : Heap) :
    exec (f + 1) (.construct (.rthrow e)) h =
      bindOk (tryC ({ h with objs := h.objs ++ [{}] }, .thrown e)
          (fun h2 e2 => exec f (.failed h.objs.length e2) h2))
        (fun h2 _ => (h2, .ok (.prom h.objs.length))) := rfl

theorem construct_rejwith_step (f : Nat) (e : JSVal) (h : Heap) :
    exec (f + 1) (.construct (.rejwith e)) h =
      bindOk (tryC (exec f (.failed h.objs.length e) { h with objs := h.objs ++ [{}] })
          (fun h2 e2 => exec f (.failed h.objs.length e2) h2))
        (fun h2 _ => (h2, .ok (.prom h.objs.length))) := rfl

/-- C9 counterexample: a future with no rejection callbacks is rejected with
"boom"; the signalled UncaughtPromiseError carries the fixed message
"Unhandle catch", which is not the rejection value "boom". -/
theorem C9_counterexample :
    MyPromise.onFailed 1 0 (.str "boom") { objs := [{}] } =
      ({ objs := [{ st := .rejected, val := .str "boom" }] },
       .thrown (.uncaughtError (.str "Unhandle catch"))) ∧
    JSVal.str "Unhandle catch" ≠ .str "boom" :=
  ⟨rfl, fun hco => by injection hco with hs; exact absurd hs (by decide)⟩

/-- C9 (amended): when a pending future with zero registered rejection
callbacks is rejected with a non-future value e, the implementation signals a
distinguishable unhandled-rejection error kind (UncaughtPromiseError), but its
payload/message is the fixed string "Unhandle catch"; the original value e is
stored as the future's value and does not appear in the signalled error. -/
theorem C9_unhandled_rejection_signal (f p : Nat) (e : JSVal) (h : Heap)
    (hp : (getObj h p).st = .pending) (hc : (getObj h p).catchCbs = [])
    (he : e.isProm = false) :
    MyPromise.onFailed (f + 1) p e h =
      (setObj h p { getObj h p with st := .rejected, val := e },
       .thrown (.uncaughtError (.str "Unhandle catch"))) :=
  onFailed_unhandled f p e h hp hc he

/-- Witness for C9 (amended) at a concrete heap. -/
theorem C9_unhandled_rejection_signal_witness :
    (getObj { objs := [{}] } 0).st = .pending ∧
    MyPromise.onFailed 1 0 (.str "boom") { objs := [{}] } =
      (setObj { objs := [{}] } 0
        { getObj { objs := [{}] } 0 with st := .rejected, val := .str "boom" },
       .thrown (.uncaughtError (.str "Unhandle catch"))) :=
  ⟨rfl, C9_unhandled_rejection_signal 0 0 (.str "boom") { objs := [{}] } rfl rfl rfl⟩

/-- C2 counterexample: constructing a future with the resolver
`() => { throw "x" }` propagates an exception (an UncaughtPromiseError) out of
the constructor, contradicting "construction itself never fails outward". -/
theorem C2_counterexample :
    (MyPromise.construct 9 (.rthrow (.str "x")) emptyHeap).2 =
      .thrown (.uncaughtError (.str "Unhandle catch")) := rfl

/-- C2 (amended): if the resolver throws a non-future value e while the future
is still pending, e is routed to the reject entry point exactly as if
reject(e) had been called — the resulting heap (new future Rejected with
value e) is identical to the heap produced by a resolver that calls
reject(e) — but, the fresh future having no rejection callbacks, the
unhandled-rejection UncaughtPromiseError propagates out of the constructor,
so construction fails outward instead of returning the future. -/
theorem C2_throwing_resolver_routed_to_reject (f : Nat) (e : JSVal) (h : Heap)
    (he : e.isProm = false) :
    MyPromise.construct (f + 2) (.rthrow e) h =
      ((MyPromise.construct (f + 2) (.rejwith e) h).1,
       .thrown (.uncaughtError (.str "Unhandle catch"))) := by
  have hfresh : getObj { h with objs := h.objs ++ [{}] } h.objs.length = {} :=
    getObj_append_fresh h {}
  have hfail := onFailed_unhandled f h.objs.length e { h with objs := h.objs ++ [{}] }
      (by rw [hfresh]) (by rw [hfresh]) he
  have hset : (getObj (setObj { h with objs := h.objs ++ [{}] } h.objs.length
      { getObj { h with objs := h.objs ++ [{}] } h.objs.length with
        st := .rejected, val := e }) h.objs.length).st ≠ .pending := by
    rw [getObj_setObj_self _ _ _ (by simp)]
    simp
  have hnoop := failed_settled f h.objs.length
      (.uncaughtError (.str "Unhandle catch")) _ hset
  unfold MyPromise.construct
  simp only [construct_rthrow_step, construct_rejwith_step, hfail, hnoop,
    tryC_thrown, tryC_ok, bindOk_ok, bindOk_thrown]

/-- Witness for C2 (amended) at the resolver `() => { throw "x" }`. -/
theorem C2_throwing_resolver_routed_to_reject_witness :
    (JSVal.str "x").isProm = false ∧
    MyPromise.construct 2 (.rthrow (.str "x")) emptyHeap =
      ((MyPromise.construct 2 (.rejwith (.str "x")) emptyHeap).1,
       .thrown (.uncaughtError (.str "Unhandle catch"))) :=
  ⟨rfl, C2_throwing_resolver_routed_to_reject 0 (.str "x") emptyHeap rfl⟩

def c5Heap (e : JSVal) : Heap :=
  (MyPromise.thenP 30 2 none (some (.huser 3))
    ((MyPromise.thenP 30 1 (some (.huser 2)) none
      ((MyPromise.thenP 30 0 (some (.hthrow e)) none
        ((MyPromise.construct 30 .rnothing emptyHeap).1)).1)).1)).1

def c5Final (v e : JSVal) : Heap × Outcome :=
  MyPromise.onSuccess 30 0 v (c5Heap e)

set_option maxHeartbeats 2000000 in
theorem C5_thrown_value_skips_then_reaches_catch (v e : JSVal)
    (hv : v.isProm = false) (he : e.isProm = false) :
    (c5Final v e).2 = .ok .undef ∧
    (getObj (c5Final v e).1 1).st = .rejected ∧
    (getObj (c5Final v e).1 1).val = e ∧
    (getObj (c5Final v e).1 2).st = .rejected ∧
    (getObj (c5Final v e).1 2).val = e ∧
    (getObj (c5Final v e).1 3).st = .fulfilled ∧
    (c5Final v e).1.log = [(.huser 3, e), (.hthrow e, v)] ∧
    (∀ x, (Handler.huser 2, x) ∉
      ([(.huser 3, e), (.hthrow e, v)] : List (Handler × JSVal))) := by
  cases v <;> cases e <;>
    simp_all [c5Final, c5Heap, MyPromise.onSuccess, MyPromise.thenP,
      MyPromise.construct, exec, getObj, setObj, allocP, getComb, setComb,
      setIdxGrow, unitize, retU, bindOk, tryC, emptyHeap, JSVal.isProm]

/-- Witness for C5 with v = 7 and e = "boom". -/
theorem C5_thrown_value_skips_then_reaches_catch_witness :
    (JSVal.num 7).isProm = false ∧ (JSVal.str "boom").isProm = false ∧
    ((c5Final (.num 7) (.str "boom")).2 = .ok .undef ∧
      (getObj (c5Final (.num 7) (.str "boom")).1 2).st = .rejected ∧
      (getObj (c5Final (.num 7) (.str "boom")).1 2).val = .str "boom") :=
  ⟨rfl, rfl, by
    have hh := C5_thrown_value_skips_then_reaches_catch (.num 7) (.str "boom") rfl rfl
    exact ⟨hh.1, hh.2.2.2.1, hh.2.2.2.2.1⟩⟩

/- C6 scenario: two fresh pending inputs (ids 0 and 1), then
   MyPromise.allSettled([0, 1]) whose outer future gets id 2 (ids 3-6 are the
   intermediate futures allocated by the two .then/.catch registrations).
   Afterwards input 0 fulfills with 1 while input 1 is still pending. -/
def c6Pre : Heap :=
  (MyPromise.allSettled 30 [0, 1]
    ((MyPromise.construct 30 .rnothing
      ((MyPromise.construct 30 .rnothing emptyHeap).1)).1)).1

def c6Post : Heap := (MyPromise.onSuccess 30 0 (.num 1) c6Pre).1

/-- C6: the code resolves allSettled as soon as the FIRST input settles.
With two pending inputs, allSettled returns future 2; fulfilling input 0
(with input 1 still Pending) immediately fulfills future 2, and its value is
the one-element sequence [{status: "fulfilled", value: 1}] — not index-aligned
with the two inputs.  This happens because resultCount is incremented at
registration time inside the forEach body, so it already equals the input
length when the first settlement callback runs. -/
theorem C6_allSettled_fulfills_before_all_settled :
    (MyPromise.allSettled 30 [0, 1]
        ((MyPromise.construct 30 .rnothing
          ((MyPromise.construct 30 .rnothing emptyHeap).1)).1)).2 =
      .ok (.prom 2) ∧
    (getObj c6Post 2).st = .fulfilled ∧
    (getObj c6Post 1).st = .pending ∧
    (getObj c6Post 2).val = .arr [.record "fulfilled" (.num 1)] :=
  ⟨rfl, rfl, rfl, rfl⟩

/- C8 scenario: two fresh pending inputs (ids 0 and 1), then
   MyPromise.any([0, 1]) whose outer future gets id 2. -/
def c8Pre : Heap :=
  (MyPromise.anyP 30 [0, 1]
    ((MyPromise.construct 30 .rnothing
      ((MyPromise.construct 30 .rnothing emptyHeap).1)).1)).1

def c8R1 : Heap × Outcome := MyPromise.onFailed 30 0 (.str "a") c8Pre
def c8R2 : Heap × Outcome := MyPromise.onFailed 30 1 (.str "b") (c8R1).1

/-- C8: the aggregate-rejection path of `any` is broken.  With two pending
inputs and any() returning future 2: rejecting input 0 makes the rejection
callback read the out-of-scope variable `value` (a ReferenceError), which ends
as an UncaughtPromiseError thrown back at the code that rejected the input;
after BOTH inputs have rejected, the outer future 2 is still Pending (it never
rejects, with an aggregate failure or otherwise), even though both rejections
were counted.  The fulfilment half works: fulfilling input 1 with 42 instead
fulfills future 2 with 42. -/
theorem C8_any_never_aggregates_rejections :
    (MyPromise.anyP 30 [0, 1]
        ((MyPromise.construct 30 .rnothing
          ((MyPromise.construct 30 .rnothing emptyHeap).1)).1)).2 =
      .ok (.prom 2) ∧
    c8R1.2 = .thrown (.uncaughtError (.str "Unhandle catch")) ∧
    c8R2.2 = .thrown (.uncaughtError (.str "Unhandle catch")) ∧
    (getObj c8R2.1 0).st = .rejected ∧
    (getObj c8R2.1 1).st = .rejected ∧
    (getObj c8R2.1 2).st = .pending ∧
    (getComb c8R2.1 2).2 = 2 ∧
    (getObj ((MyPromise.onSuccess 30 1 (.num 42) c8Pre).1) 2).st = .fulfilled ∧
    (getObj ((MyPromise.onSuccess 30 1 (.num 42) c8Pre).1) 2).val = .num 42 :=
  ⟨rfl, rfl, rfl, rfl, rfl, rfl, rfl, rfl, rfl⟩

/- C7 scenario: three fresh pending inputs (ids 0, 1, 2), then
   MyPromise.all([0, 1, 2]) whose outer future gets id 3 (ids 4-9 are the
   intermediate futures of the three .then/.catch registrations). -/
def c7Pre : Heap :=
  (MyPromise.all 40 [0, 1, 2]
    ((MyPromise.construct 30 .rnothing
      ((MyPromise.construct 30 .rnothing
        ((MyPromise.construct 30 .rnothing emptyHeap).1)).1)).1)).1

/- Fulfil input i with the i-th of the three given values. -/
def c7Vals (a0 a1 a2 : Int) : Nat → JSVal :=
  fun i => if i = 0 then .num a0 else if i = 1 then .num a1 else .num a2

def c7RunSucc (vals : Nat → JSVal) (ord : List Nat) (h : Heap) : Heap :=
  ord.foldl (fun hh i => (MyPromise.onSuccess 40 i (vals i) hh).1) h

def c7Perms : List (List Nat) :=
  [[0, 1, 2], [0, 2, 1], [1, 0, 2], [1, 2, 0], [2, 0, 1], [2, 1, 0]]


/- Single-step lemmas for the interpreter, used to reason about executions
   whose fuel is symbolic. -/

theorem setObj_setObj (h : Heap) (p : Nat) (o1 o2 : PromObj) :
    setObj (setObj h p o1) p o2 = setObj h p o2 := by
  simp [setObj, List.set_set]

theorem success_step (f p : Nat) (v : JSVal) (h : Heap)
    (hp : (getObj h p).st = .pending) (hv : v.isProm = false) :
    exec (f + 1) (.success p v) h =
      retU (exec f (.drain p true)
        (setObj h p { getObj h p with st := .fulfilled, val := v })) := by
  cases v <;> simp_all [exec, JSVal.isProm]

theorem failed_step (f p : Nat) (e : JSVal) (h : Heap)
    (hp : (getObj h p).st = .pending) (he : e.isProm = false)
    (hcb : (getObj h p).catchCbs ≠ []) :
    exec (f + 1) (.failed p e) h =
      retU (exec f (.drain p false)
        (setObj h p { getObj h p with st := .rejected, val := e })) := by
  cases e <;> simp_all [exec, JSVal.isProm, List.length_eq_zero]

theorem drain_cons_then (f p : Nat) (h : Heap) (cb : Callback)
    (rest : List Callback) (hcb : (getObj h p).thenCbs = cb :: rest) :
    exec (f + 1) (.drain p true) h =
      bindOk (exec f (.invokeCb cb (getObj h p).val)
          (setObj h p { getObj h p with thenCbs := rest }))
        (fun h2 _ => exec f (.drain p true) h2) := by
  simp [exec, hcb]

theorem drain_cons_catch (f p : Nat) (h : Heap) (cb : Callback)
    (rest : List Callback) (hcb : (getObj h p).catchCbs = cb :: rest) :
    exec (f + 1) (.drain p false) h =
      bindOk (exec f (.invokeCb cb (getObj h p).val)
          (setObj h p { getObj h p with catchCbs := rest }))
        (fun h2 _ => exec f (.drain p false) h2) := by
  simp [exec, hcb]

theorem drain_nil_then (f p : Nat) (h : Heap) (hcb : (getObj h p).thenCbs = []) :
    exec (f + 1) (.drain p true) h = (h, .ok .undef) := by
  simp [exec, hcb]

theorem drain_nil_catch (f p : Nat) (h : Heap) (hcb : (getObj h p).catchCbs = []) :
    exec (f + 1) (.drain p false) h = (h, .ok .undef) := by
  simp [exec, hcb]

theorem invokeCb_then_some (f : Nat) (hd : Handler) (tgt : Nat) (arg : JSVal)
    (h : Heap) :
    exec (f + 1) (.invokeCb (.thenWrapper (some hd) tgt) arg) h =
      retU (tryC (bindOk (exec f (.invokeH hd arg) h)
          (fun h2 v => exec f (.success tgt v) h2))
        (fun h2 e => exec f (.failed tgt e) h2)) := rfl

theorem invokeCb_catch_some (f : Nat) (hd : Handler) (tgt : Nat) (arg : JSVal)
    (h : Heap) :
    exec (f + 1) (.invokeCb (.catchWrapper (some hd) tgt) arg) h =
      retU (tryC (bindOk (exec f (.invokeH hd arg) h)
          (fun h2 v => exec f (.success tgt v) h2))
        (fun h2 e => exec f (.failed tgt e) h2)) := rfl

theorem invokeH_entryS (f q : Nat) (arg : JSVal) (h : Heap) :
    exec (f + 1) (.invokeH (.entryS q) arg) h =
      retU (exec f (.success q arg) { h with log := (.entryS q, arg) :: h.log }) := rfl

theorem invokeH_entryF (f q : Nat) (arg : JSVal) (h : Heap) :
    exec (f + 1) (.invokeH (.entryF q) arg) h =
      retU (exec f (.failed q arg) { h with log := (.entryF q, arg) :: h.log }) := rfl

theorem success_fresh (f p : Nat) (v : JSVal) (h : Heap)
    (hlt : p < h.objs.length) (hobj : getObj h p = {}) (hv : v.isProm = false) :
    exec (f + 2) (.success p v) h =
      (setObj h p { st := .fulfilled, val := v }, .ok .undef) := by
  rw [show f + 2 = (f + 1) + 1 from rfl,
    success_step (f + 1) p v h (by rw [hobj]) hv, hobj]
  rw [drain_nil_then f p _ (by rw [getObj_setObj_self _ _ _ hlt])]
  rfl

theorem failed_fresh (f p : Nat) (e : JSVal) (h : Heap)
    (hobj : getObj h p = {}) (he : e.isProm = false) :
    exec (f + 1) (.failed p e) h =
      (setObj h p { st := .rejected, val := e },
       .thrown (.uncaughtError (.str "Unhandle catch"))) := by
  rw [onFailed_unhandled f p e h (by rw [hobj]) (by rw [hobj]) he, hobj]

/- C4: flattening chains.  `Chain h p L` says that promise p is the innermost
   element of a flattening chain in heap h: for L = [(q1,c1), ..., (qk,ck)],
   each link was produced by calling  q.#onSuccess(prom p')  while both were
   pending (outermost first: qk.#onSuccess(prom q(k-1)) ... q1.#onSuccess(prom p)),
   which left the wrapper pair of  p'.then(q.#onSuccess, q.#onFailed)  on the
   inner promise p' with intermediate promise c; the outermost promise qk is a
   fresh pending promise.  All ids are distinct. -/

def chainPids : List (Nat × Nat) → List Nat
  | [] => []
  | (q, c) :: L => q :: c :: chainPids L

def Chain : Heap → Nat → List (Nat × Nat) → Prop
  | h, p, [] => p < h.objs.length ∧ getObj h p = {}
  | h, p, (q, c) :: L =>
      p < h.objs.length ∧ c < h.objs.length ∧
      getObj h p = { st := .pending, val := .undef,
                     thenCbs := [.thenWrapper (some (.entryS q)) c],
                     catchCbs := [.catchWrapper (some (.entryF q)) c] } ∧
      getObj h c = {} ∧
      p ≠ q ∧ p ≠ c ∧ q ≠ c ∧ p ∉ chainPids L ∧ c ∉ chainPids L ∧
      Chain h q L

/- The heap produced by settling the whole chain with a fulfilment value v:
   every chain promise becomes Fulfilled with v (its then-queue drained, its
   catch-queue kept), every intermediate promise fulfills with undefined, and
   the log records each #onSuccess handler invocation. -/
def settleChainF : Heap → Nat → List (Nat × Nat) → JSVal → Heap
  | h, p, [], v => setObj h p { st := .fulfilled, val := v }
  | h, p, (q, c) :: L, v =>
      let h1 := setObj h p { st := .fulfilled, val := v, thenCbs := [],
                             catchCbs := [.catchWrapper (some (.entryF q)) c] }
      let h2 := { h1 with log := (.entryS q, v) :: h1.log }
      let h3 := settleChainF h2 q L v
      setObj h3 c { st := .fulfilled, val := .undef }

theorem setObj_objs_length (h : Heap) (p : Nat) (o : PromObj) :
    (setObj h p o).objs.length = h.objs.length := by
  simp [setObj]

theorem getObj_setLog (h : Heap) (l : List (Handler × JSVal)) (x : Nat) :
    getObj { h with log := l } x = getObj h x := rfl

theorem settleChainF_objs_length (L : List (Nat × Nat)) :
    ∀ (h : Heap) (p : Nat) (v : JSVal),
      (settleChainF h p L v).objs.length = h.objs.length := by
  induction L with
  | nil => intro h p v; simp [settleChainF, setObj_objs_length]
  | cons qc L ih =>
    intro h p v
    obtain ⟨q, c⟩ := qc
    simp [settleChainF, setObj_objs_length, ih]

theorem getObj_settleChainF_ne (L : List (Nat × Nat)) :
    ∀ (h : Heap) (p : Nat) (v : JSVal) (x : Nat),
      x ≠ p → x ∉ chainPids L →
      getObj (settleChainF h p L v) x = getObj h x := by
  induction L with
  | nil =>
    intro h p v x hxp _
    simp [settleChainF, getObj_setObj_ne _ _ _ _ hxp]
  | cons qc L ih =>
    intro h p v x hxp hxL
    obtain ⟨q, c⟩ := qc
    simp only [chainPids, List.mem_cons, not_or] at hxL
    obtain ⟨hxq, hxc, hxL⟩ := hxL
    simp only [settleChainF]
    rw [getObj_setObj_ne _ _ _ _ hxc, ih _ _ _ _ hxq hxL, getObj_setLog,
      getObj_setObj_ne _ _ _ _ hxp]

theorem Chain_frame (L : List (Nat × Nat)) :
    ∀ (h h2 : Heap) (p : Nat), Chain h p L →
      (∀ x, x = p ∨ x ∈ chainPids L → getObj h2 x = getObj h x) →
      h.objs.length ≤ h2.objs.length → Chain h2 p L := by
  induction L with
  | nil =>
    intro h h2 p hch heq hlen
    exact ⟨lt_of_lt_of_le hch.1 hlen, by rw [heq p (Or.inl rfl)]; exact hch.2⟩
  | cons qc L ih =>
    intro h h2 p hch heq hlen
    obtain ⟨q, c⟩ := qc
    obtain ⟨h1, h2', h3, h4, h5, h6, h7, h8, h9, h10⟩ := hch
    refine ⟨lt_of_lt_of_le h1 hlen, lt_of_lt_of_le h2' hlen, ?_, ?_, h5, h6, h7, h8, h9, ?_⟩
    · rw [heq p (Or.inl rfl)]; exact h3
    · rw [heq c (Or.inr (by simp [chainPids]))]; exact h4
    · exact ih h h2 q h10
        (fun x hx => heq x (Or.inr (by
          rcases hx with hx | hx
          · simp [chainPids, hx]
          · simp [chainPids, hx]))) hlen

theorem Chain_setObj_log (h : Heap) (p q : Nat) (L : List (Nat × Nat)) (o : PromObj)
    (lg : List (Handler × JSVal)) (hchq : Chain h q L) (hqp : q ≠ p)
    (hpL2 : ∀ x ∈ chainPids L, x ≠ p) :
    Chain { setObj h p o with log := lg } q L := by
  refine Chain_frame L h _ q hchq (fun x hx => ?_) (by simp [setObj_objs_length])
  have hxp : x ≠ p := by
    rcases hx with hx | hx
    · exact hx ▸ hqp
    · exact hpL2 x hx
  rw [getObj_setLog, getObj_setObj_ne _ _ _ _ hxp]

theorem step_child (f q c p : Nat) (L : List (Nat × Nat)) (h1 : Heap) (o : PromObj)
    (lg : List (Handler × JSVal)) (v : JSVal)
    (hcl : c < h1.objs.length) (hoc : getObj h1 c = {}) (hcp : c ≠ p) (hcq : c ≠ q)
    (hcL : c ∉ chainPids L) :
    exec (f + 2) (.success c .undef) (settleChainF { setObj h1 p o with log := lg } q L v) =
      (setObj (settleChainF { setObj h1 p o with log := lg } q L v) c
        { st := .fulfilled, val := .undef }, .ok .undef) := by
  refine success_fresh f c .undef _ ?_ ?_ rfl
  · rw [settleChainF_objs_length]
    simpa [setObj_objs_length] using hcl
  · rw [getObj_settleChainF_ne L _ q v c hcq hcL, getObj_setLog,
      getObj_setObj_ne _ _ _ _ hcp, hoc]

theorem step_final_drain (f q c p : Nat) (L : List (Nat × Nat)) (h1 : Heap) (o : PromObj)
    (lg : List (Handler × JSVal)) (v : JSVal) (o2 : PromObj)
    (hpl : p < h1.objs.length) (hpq : p ≠ q) (hpc : p ≠ c) (hpL : p ∉ chainPids L)
    (hthen : o.thenCbs = []) :
    exec (f + 1) (.drain p true)
        (setObj (settleChainF { setObj h1 p o with log := lg } q L v) c o2) =
      (setObj (settleChainF { setObj h1 p o with log := lg } q L v) c o2, .ok .undef) := by
  refine drain_nil_then f p _ ?_
  rw [getObj_setObj_ne _ _ _ _ hpc, getObj_settleChainF_ne L _ q v p hpq hpL,
    getObj_setLog, getObj_setObj_self _ _ _ (by simpa [setObj_objs_length] using hpl),
    hthen]

theorem chain_settle_fulfilled (L : List (Nat × Nat)) :
    ∀ (h : Heap) (p : Nat) (v : JSVal), Chain h p L → v.isProm = false →
      exec (4 * L.length + 2) (.success p v) h =
        (settleChainF h p L v, .ok .undef) := by
  induction L with
  | nil =>
    intro h p v hch hv
    exact success_fresh 0 p v h hch.1 hch.2 hv
  | cons qc L ih =>
    intro h p v hch hv
    obtain ⟨q, c⟩ := qc
    obtain ⟨hpl, hcl, hop, hoc, hpq, hpc, hqc, hpL, hcL, hchq⟩ := hch
    have hG : (4 * (((q, c) :: L).length) + 2) = (4 * L.length + 2 + 3) + 1 := by
      simp [List.length_cons]; ring
    rw [hG, success_step _ p v h (by rw [hop]) hv]
    have hobj1 : getObj (setObj h p { getObj h p with st := .fulfilled, val := v }) p
        = { st := .fulfilled, val := v,
            thenCbs := [.thenWrapper (some (.entryS q)) c],
            catchCbs := [.catchWrapper (some (.entryF q)) c] } := by
      rw [getObj_setObj_self _ _ _ hpl, hop]
    rw [show (4 * L.length + 2 + 3) = (4 * L.length + 2 + 2) + 1 from rfl,
      drain_cons_then _ p _ (.thenWrapper (some (.entryS q)) c) [] (by rw [hobj1])]
    simp only [hobj1, setObj_setObj]
    rw [show (4 * L.length + 4) = (4 * L.length + 3) + 1 from rfl, invokeCb_then_some,
      show (4 * L.length + 3) = (4 * L.length + 2) + 1 from rfl, invokeH_entryS,
      ih _ q v (Chain_setObj_log h p q L _ _ hchq (fun hh => hpq hh.symm)
        (fun x hx hh => hpL (hh ▸ hx))) hv]
    simp only [retU_pair, unitize_ok, bindOk_ok, tryC_ok]
    rw [show (4 * L.length + 2 + 1) = (4 * L.length + 1) + 2 from rfl,
      step_child (4 * L.length + 1) q c p L h _ _ v hcl hoc (fun hh => hpc hh.symm)
        (fun hh => hqc hh.symm) hcL]
    simp only [tryC_ok, retU_pair, unitize_ok, bindOk_ok]
    rw [step_final_drain _ q c p L h _ _ v _ hpl hpq hpc hpL rfl]
    simp only [retU_pair, unitize_ok, settleChainF]

/- The heap produced by rejecting the whole chain with error e: every chain
   promise becomes Rejected with e (its catch-queue drained, then-queue kept);
   the outermost promise has no catch callbacks, so an UncaughtPromiseError is
   thrown there; it then cascades back down, rejecting every intermediate
   promise c with the UncaughtPromiseError itself and re-throwing. -/
def settleChainR : Heap → Nat → List (Nat × Nat) → JSVal → Heap
  | h, p, [], e => setObj h p { st := .rejected, val := e }
  | h, p, (q, c) :: L, e =>
      let h1 := setObj h p { st := .rejected, val := e,
                             thenCbs := [.thenWrapper (some (.entryS q)) c],
                             catchCbs := [] }
      let h2 := { h1 with log := (.entryF q, e) :: h1.log }
      let h3 := settleChainR h2 q L e
      setObj h3 c { st := .rejected, val := .uncaughtError (.str "Unhandle catch") }

theorem getObj_settleChainR_ne (L : List (Nat × Nat)) :
    ∀ (h : Heap) (p : Nat) (e : JSVal) (x : Nat),
      x ≠ p → x ∉ chainPids L →
      getObj (settleChainR h p L e) x = getObj h x := by
  induction L with
  | nil =>
    intro h p e x hxp _
    simp [settleChainR, getObj_setObj_ne _ _ _ _ hxp]
  | cons qc L ih =>
    intro h p e x hxp hxL
    obtain ⟨q, c⟩ := qc
    simp only [chainPids, List.mem_cons, not_or] at hxL
    obtain ⟨hxq, hxc, hxL⟩ := hxL
    simp only [settleChainR]
    rw [getObj_setObj_ne _ _ _ _ hxc, ih _ _ _ _ hxq hxL, getObj_setLog,
      getObj_setObj_ne _ _ _ _ hxp]

theorem step_child_reject (f q c p : Nat) (L : List (Nat × Nat)) (h1 : Heap)
    (o : PromObj) (lg : List (Handler × JSVal)) (e : JSVal)
    (hoc : getObj h1 c = {}) (hcp : c ≠ p) (hcq : c ≠ q) (hcL : c ∉ chainPids L) :
    exec (f + 1) (.failed c (.uncaughtError (.str "Unhandle catch")))
        (settleChainR { setObj h1 p o with log := lg } q L e) =
      (setObj (settleChainR { setObj h1 p o with log := lg } q L e) c
        { st := .rejected, val := .uncaughtError (.str "Unhandle catch") },
       .thrown (.uncaughtError (.str "Unhandle catch"))) := by
  refine failed_fresh f c _ _ ?_ rfl
  rw [getObj_settleChainR_ne L _ q e c hcq hcL, getObj_setLog,
    getObj_setObj_ne _ _ _ _ hcp, hoc]

theorem chain_settle_rejected (L : List (Nat × Nat)) :
    ∀ (h : Heap) (p : Nat) (e : JSVal), Chain h p L → e.isProm = false →
      exec (4 * L.length + 1) (.failed p e) h =
        (settleChainR h p L e, .thrown (.uncaughtError (.str "Unhandle catch"))) := by
  induction L with
  | nil =>
    intro h p e hch he
    exact failed_fresh _ p e h hch.2 he
  | cons qc L ih =>
    intro h p e hch he
    obtain ⟨q, c⟩ := qc
    obtain ⟨hpl, hcl, hop, hoc, hpq, hpc, hqc, hpL, hcL, hchq⟩ := hch
    have hG : (4 * (((q, c) :: L).length) + 1) = (4 * L.length + 1 + 3) + 1 := by
      simp [List.length_cons]; ring
    rw [hG, failed_step _ p e h (by rw [hop]) he (by rw [hop]; simp)]
    have hobj1 : getObj (setObj h p { getObj h p with st := .rejected, val := e }) p
        = { st := .rejected, val := e,
            thenCbs := [.thenWrapper (some (.entryS q)) c],
            catchCbs := [.catchWrapper (some (.entryF q)) c] } := by
      rw [getObj_setObj_self _ _ _ hpl, hop]
    rw [show (4 * L.length + 1 + 3) = (4 * L.length + 1 + 2) + 1 from rfl,
      drain_cons_catch _ p _ (.catchWrapper (some (.entryF q)) c) [] (by rw [hobj1])]
    simp only [hobj1, setObj_setObj]
    rw [show (4 * L.length + 3) = (4 * L.length + 2) + 1 from rfl, invokeCb_catch_some,
      show (4 * L.length + 2) = (4 * L.length + 1) + 1 from rfl, invokeH_entryF,
      ih _ q e (Chain_setObj_log h p q L _ _ hchq (fun hh => hpq hh.symm)
        (fun x hx hh => hpL (hh ▸ hx))) he]
    simp only [retU_pair, unitize_thrown, bindOk_thrown, tryC_thrown]
    rw [step_child_reject (4 * L.length + 1) q c p L h _ _ e hoc
      (fun hh => hpc hh.symm) (fun hh => hqc hh.symm) hcL]
    simp only [retU_pair, unitize_thrown, bindOk_thrown, settleChainR]

theorem mem_map_fst_chainPids (L : List (Nat × Nat)) (x : Nat)
    (hx : x ∈ L.map Prod.fst) : x ∈ chainPids L := by
  induction L with
  | nil => simp at hx
  | cons qc L ih =>
    obtain ⟨q, c⟩ := qc
    simp only [List.map_cons, List.mem_cons] at hx
    rcases hx with hx | hx
    · simp [chainPids, hx]
    · simp [chainPids, ih hx]

theorem settleChainF_member (L : List (Nat × Nat)) :
    ∀ (h : Heap) (p : Nat) (v : JSVal) (x : Nat), Chain h p L →
      (x = p ∨ x ∈ L.map Prod.fst) →
      (getObj (settleChainF h p L v) x).st = .fulfilled ∧
      (getObj (settleChainF h p L v) x).val = v := by
  induction L with
  | nil =>
    intro h p v x hch hx
    rcases hx with hx | hx
    · subst hx
      rw [show settleChainF h x [] v = setObj h x { st := .fulfilled, val := v } from rfl,
        getObj_setObj_self _ _ _ hch.1]
      exact ⟨rfl, rfl⟩
    · simp at hx
  | cons qc L ih =>
    intro h p v x hch hx
    obtain ⟨q, c⟩ := qc
    obtain ⟨hpl, hcl, hop, hoc, hpq, hpc, hqc, hpL, hcL, hchq⟩ := hch
    simp only [settleChainF]
    rcases hx with hx | hx
    · subst hx
      rw [getObj_setObj_ne _ _ _ _ hpc,
        getObj_settleChainF_ne L _ q v x hpq hpL, getObj_setLog,
        getObj_setObj_self _ _ _ hpl]
      exact ⟨rfl, rfl⟩
    · simp only [List.map_cons, List.mem_cons] at hx
      have hxc : x ≠ c := by
        rcases hx with hx | hx
        · exact fun hh => hqc (hx.symm.trans hh)
        · exact fun hh => hcL (hh ▸ mem_map_fst_chainPids L x hx)
      rw [getObj_setObj_ne _ _ _ _ hxc]
      exact ih _ q v x
        (Chain_setObj_log h p q L _ _ hchq (fun hh => hpq hh.symm)
          (fun y hy hh => hpL (hh ▸ hy)))
        (by rcases hx with hx | hx
            · exact Or.inl hx
            · exact Or.inr hx)

theorem settleChainR_member (L : List (Nat × Nat)) :
    ∀ (h : Heap) (p : Nat) (e : JSVal) (x : Nat), Chain h p L →
      (x = p ∨ x ∈ L.map Prod.fst) →
      (getObj (settleChainR h p L e) x).st = .rejected ∧
      (getObj (settleChainR h p L e) x).val = e := by
  induction L with
  | nil =>
    intro h p e x hch hx
    rcases hx with hx | hx
    · subst hx
      rw [show settleChainR h x [] e = setObj h x { st := .rejected, val := e } from rfl,
        getObj_setObj_self _ _ _ hch.1]
      exact ⟨rfl, rfl⟩
    · simp at hx
  | cons qc L ih =>
    intro h p e x hch hx
    obtain ⟨q, c⟩ := qc
    obtain ⟨hpl, hcl, hop, hoc, hpq, hpc, hqc, hpL, hcL, hchq⟩ := hch
    simp only [settleChainR]
    rcases hx with hx | hx
    · subst hx
      rw [getObj_setObj_ne _ _ _ _ hpc,
        getObj_settleChainR_ne L _ q e x hpq hpL, getObj_setLog,
        getObj_setObj_self _ _ _ hpl]
      exact ⟨rfl, rfl⟩
    · simp only [List.map_cons, List.mem_cons] at hx
      have hxc : x ≠ c := by
        rcases hx with hx | hx
        · exact fun hh => hqc (hx.symm.trans hh)
        · exact fun hh => hcL (hh ▸ mem_map_fst_chainPids L x hx)
      rw [getObj_setObj_ne _ _ _ _ hxc]
      exact ih _ q e x
        (Chain_setObj_log h p q L _ _ hchq (fun hh => hpq hh.symm)
          (fun y hy hh => hpL (hh ▸ hy)))
        (by rcases hx with hx | hx
            · exact Or.inl hx
            · exact Or.inr hx)

/- Creating one link of the chain: while F (= p) is pending, calling its
   fulfill entry point with a fresh pending future G (= g) registers F's own
   entry points as continuations of G via G.then and settles nothing. -/

def chainLink (h : Heap) (p g : Nat) : Heap :=
  setObj { h with objs := h.objs ++ [{}] } g
    { st := .pending, val := .undef,
      thenCbs := [.thenWrapper (some (.entryS p)) h.objs.length],
      catchCbs := [.catchWrapper (some (.entryF p)) h.objs.length] }

theorem success_prom_step (f p g : Nat) (h : Heap)
    (hp : (getObj h p).st = .pending) :
    exec (f + 1) (.success p (.prom g)) h =
      retU (exec f (.thenC g (some (.entryS p)) (some (.entryF p))) h) := by
  simp [exec, hp]

theorem thenC_pending (f pp : Nat) (t c : Option Handler) (h : Heap)
    (hst : (getObj h pp).st = .pending) (hpplt : pp < h.objs.length) :
    exec (f + 1) (.thenC pp t c) h =
      (setObj { h with objs := h.objs ++ [{}] } pp
        { getObj h pp with
          thenCbs := .thenWrapper t h.objs.length :: (getObj h pp).thenCbs,
          catchCbs := .catchWrapper c h.objs.length :: (getObj h pp).catchCbs },
       .ok (.prom h.objs.length)) := by
  have hne : pp ≠ h.objs.length := Nat.ne_of_lt hpplt
  have ha : getObj { h with objs := h.objs ++ [{}] } pp = getObj h pp :=
    getObj_append_old h {} pp hne
  have hc : (getObj (setObj { h with objs := h.objs ++ [{}] } pp
      { getObj h pp with
        thenCbs := .thenWrapper t h.objs.length :: (getObj h pp).thenCbs,
        catchCbs := .catchWrapper c h.objs.length :: (getObj h pp).catchCbs }) pp).st
      = .pending := by
    rw [getObj_setObj_self]
    · exact hst
    · simp
      omega
  simp only [exec, allocP, ha, hc]
  rfl

theorem Chain_head_lt (L : List (Nat × Nat)) (h : Heap) (p : Nat)
    (hch : Chain h p L) : p < h.objs.length := by
  cases L with
  | nil => exact hch.1
  | cons qc L =>
    obtain ⟨q, c⟩ := qc
    exact hch.1

theorem Chain_pids_lt (L : List (Nat × Nat)) :
    ∀ (h : Heap) (p : Nat), Chain h p L →
      ∀ x ∈ chainPids L, x < h.objs.length := by
  induction L with
  | nil => intro h p _ x hx; simp [chainPids] at hx
  | cons qc L ih =>
    intro h p hch x hx
    obtain ⟨q, c⟩ := qc
    obtain ⟨hpl, hcl, hop, hoc, hpq, hpc, hqc, hpL, hcL, hchq⟩ := hch
    simp only [chainPids, List.mem_cons] at hx
    rcases hx with hx | hx | hx
    · exact hx ▸ Chain_head_lt L h q hchq
    · exact hx ▸ hcl
    · exact ih h q hchq x hx

theorem chain_link_Chain (L : List (Nat × Nat)) (h : Heap) (p g : Nat)
    (hch : Chain h p L) (hgl : g < h.objs.length)
    (hgp : g ≠ p) (hgL : g ∉ chainPids L) :
    Chain (chainLink h p g) g ((p, h.objs.length) :: L) := by
  have hpl : p < h.objs.length := Chain_head_lt L h p hch
  have hgn : g ≠ h.objs.length := Nat.ne_of_lt hgl
  have hpn : p ≠ h.objs.length := Nat.ne_of_lt hpl
  refine ⟨?_, ?_, ?_, ?_, hgp, hgn, hpn, hgL, ?_, ?_⟩
  · simp [chainLink, setObj_objs_length]
    omega
  · simp [chainLink, setObj_objs_length]
  · rw [chainLink, getObj_setObj_self _ _ _ (by simp; omega)]
  · rw [chainLink, getObj_setObj_ne _ _ _ _ (fun hh => hgn hh.symm),
      getObj_append_fresh]
  · intro hx
    exact absurd (Chain_pids_lt L h p hch _ hx) (by omega)
  · refine Chain_frame L h _ p hch (fun x hx => ?_) (by simp [chainLink, setObj_objs_length])
    have hxlt : x < h.objs.length := by
      rcases hx with hx | hx
      · exact hx ▸ hpl
      · exact Chain_pids_lt L h p hch x hx
    have hxg : x ≠ g := by
      rcases hx with hx | hx
      · exact fun hh => hgp (hh.symm.trans hx)
      · exact fun hh => hgL (hh ▸ hx)
    rw [chainLink, getObj_setObj_ne _ _ _ _ hxg,
      getObj_append_old h {} x (Nat.ne_of_lt hxlt)]

theorem chain_link_exec (f : Nat) (h : Heap) (p g : Nat)
    (hp : (getObj h p).st = .pending) (hgl : g < h.objs.length)
    (hg : getObj h g = {}) :
    exec (f + 2) (.success p (.prom g)) h = (chainLink h p g, .ok .undef) := by
  rw [show f + 2 = (f + 1) + 1 from rfl,
    success_prom_step (f + 1) p g h hp,
    thenC_pending f g (some (.entryS p)) (some (.entryF p)) h (by rw [hg]) hgl,
    retU_pair, hg, chainLink]
  rfl

theorem Chain_head_pending (L : List (Nat × Nat)) (h : Heap) (p : Nat)
    (hch : Chain h p L) : (getObj h p).st = .pending := by
  cases L with
  | nil => rw [hch.2]
  | cons qc L =>
    obtain ⟨q, c⟩ := qc
    rw [hch.2.2.1]

/-- C4: fulfilling a pending future with another future adopts that future's
eventual settlement, through arbitrarily many levels of nesting.  `Chain h p L`
describes the heap state after an arbitrary-depth nest was built by calls of
the fulfill entry point with a future argument (outermost future last in L,
innermost pending future p).  Part one: one more such call, on a fresh pending
future g, settles nothing and just extends the chain (it registers p's own
entry points as continuations of g via g.then).  Part two: when the innermost
future of a chain fulfills with a non-future value v, every future of the
chain becomes Fulfilled with exactly v.  Part three: when it rejects with a
non-future error e, every future of the chain becomes Rejected with exactly
e.  So the outer future always settles with the same state and value/error as
the innermost settlement. -/
theorem C4_fulfill_with_future_adopts_settlement :
    (∀ (f : Nat) (L : List (Nat × Nat)) (h : Heap) (p g : Nat),
      Chain h p L → g < h.objs.length → getObj h g = {} → g ≠ p →
      g ∉ chainPids L →
      MyPromise.onSuccess (f + 2) p (.prom g) h = (chainLink h p g, .ok .undef) ∧
      Chain (chainLink h p g) g ((p, h.objs.length) :: L)) ∧
    (∀ (L : List (Nat × Nat)) (h : Heap) (p : Nat) (v : JSVal) (x : Nat),
      Chain h p L → v.isProm = false → (x = p ∨ x ∈ L.map Prod.fst) →
      (getObj (MyPromise.onSuccess (4 * L.length + 2) p v h).1 x).st = .fulfilled ∧
      (getObj (MyPromise.onSuccess (4 * L.length + 2) p v h).1 x).val = v) ∧
    (∀ (L : List (Nat × Nat)) (h : Heap) (p : Nat) (e : JSVal) (x : Nat),
      Chain h p L → e.isProm = false → (x = p ∨ x ∈ L.map Prod.fst) →
      (getObj (MyPromise.onFailed (4 * L.length + 1) p e h).1 x).st = .rejected ∧
      (getObj (MyPromise.onFailed (4 * L.length + 1) p e h).1 x).val = e) := by
  refine ⟨?_, ?_, ?_⟩
  · intro f L h p g hch hgl hg hgp hgL
    exact ⟨chain_link_exec f h p g (Chain_head_pending L h p hch) hgl hg,
      chain_link_Chain L h p g hch hgl hgp hgL⟩
  · intro L h p v x hch hv hx
    rw [MyPromise.onSuccess, chain_settle_fulfilled L h p v hch hv]
    exact settleChainF_member L h p v x hch hx
  · intro L h p e x hch he hx
    rw [MyPromise.onFailed, chain_settle_rejected L h p e hch he]
    exact settleChainR_member L h p e x hch hx

/- A concrete three-future nest built through the API: three fresh futures
   0, 1, 2; then 0.#onSuccess(future 1) (creating intermediate 3) and
   1.#onSuccess(future 2) (creating intermediate 4). -/
def c4Linked1 : Heap :=
  (MyPromise.onSuccess 10 0 (.prom 1)
    ((MyPromise.construct 5 .rnothing
      ((MyPromise.construct 5 .rnothing
        ((MyPromise.construct 5 .rnothing emptyHeap).1)).1)).1)).1

def c4Linked2 : Heap := (MyPromise.onSuccess 10 1 (.prom 2) c4Linked1).1

theorem c4Chain1 : Chain c4Linked1 1 [(0, 3)] :=
  ⟨by decide, by decide, rfl, rfl, by decide, by decide, by decide,
   by decide, by decide, by decide, rfl⟩

theorem c4Chain2 : Chain c4Linked2 2 [(1, 4), (0, 3)] :=
  ⟨by decide, by decide, rfl, rfl, by decide, by decide, by decide,
   by decide, by decide,
   ⟨by decide, by decide, rfl, rfl, by decide, by decide, by decide,
    by decide, by decide, by decide, rfl⟩⟩

/-- Witness for C4 on the concrete three-future nest: linking is inert, and
settling the innermost future 2 settles the outermost future 0 identically
(Fulfilled 9, or Rejected "bad"). -/
theorem C4_fulfill_with_future_adopts_settlement_witness :
    (MyPromise.onSuccess 10 1 (.prom 2) c4Linked1 =
        (chainLink c4Linked1 1 2, .ok .undef) ∧
      Chain (chainLink c4Linked1 1 2) 2 [(1, 4), (0, 3)]) ∧
    ((getObj (MyPromise.onSuccess 10 2 (.num 9) c4Linked2).1 0).st = .fulfilled ∧
      (getObj (MyPromise.onSuccess 10 2 (.num 9) c4Linked2).1 0).val = .num 9) ∧
    ((getObj (MyPromise.onFailed 9 2 (.str "bad") c4Linked2).1 0).st = .rejected ∧
      (getObj (MyPromise.onFailed 9 2 (.str "bad") c4Linked2).1 0).val = .str "bad") :=
  ⟨C4_fulfill_with_future_adopts_settlement.1 8 [(0, 3)] c4Linked1 1 2 c4Chain1
      (by decide) rfl (by decide) (by decide),
   C4_fulfill_with_future_adopts_settlement.2.1 [(1, 4), (0, 3)] c4Linked2 2
      (.num 9) 0 c4Chain2 rfl (Or.inr (by decide)),
   C4_fulfill_with_future_adopts_settlement.2.2 [(1, 4), (0, 3)] c4Linked2 2
      (.str "bad") 0 c4Chain2 rfl (Or.inr (by decide))⟩

/- C10: which stored closures hold a capability to settle promise p.  A
   handler references p when it is one of p's own bound entry points or a
   combinator closure whose captured resolve/reject belong to p; a wrapper
   references p when its captured target (the promise it settles) is p or its
   user handler references p.  Plain future-valued data (`JSVal.prom p`) is
   not a settling capability: fulfilling some other promise with it only
   registers continuations on p. -/

def handlerRefs (p : Nat) : Handler → Bool
  | .entryS q => q == p
  | .entryF q => q == p
  | .allThen o _ _ => o == p
  | .allCatch o => o == p
  | .allSettledThen o _ _ => o == p
  | .allSettledCatch o _ _ => o == p
  | .anyThen o => o == p
  | .anyCatch o _ _ => o == p
  | _ => false

def hOptRefs (p : Nat) : Option Handler → Bool
  | none => false
  | some hd => handlerRefs p hd

def cbRefs (p : Nat) : Callback → Bool
  | .thenWrapper hnd tgt => tgt == p || hOptRefs p hnd
  | .catchWrapper hnd tgt => tgt == p || hOptRefs p hnd

def objRefs (p : Nat) (o : PromObj) : Bool :=
  o.thenCbs.any (cbRefs p) || o.catchCbs.any (cbRefs p)

def heapRefs (p : Nat) (h : Heap) : Bool := h.objs.any (objRefs p)

/- A promise that is pending and unreferenced: nothing stored anywhere in the
   heap can ever invoke its fulfill or reject entry point. -/
def Unsettled (p : Nat) (h : Heap) : Prop :=
  p < h.objs.length ∧ (getObj h p).st = .pending ∧ heapRefs p h = false

/- A call that does not itself invoke p's entry points directly: it settles a
   different promise, invokes a stored closure not referencing p, registers
   handlers not referencing p, or is a combinator loop for a different outer
   promise.  (Construction, then/catch registration and whole-combinator
   calls are always allowed: the closures they create reference only the
   freshly allocated promise.) -/
def callAvoids (p : Nat) : Call → Prop
  | .success q _ => q ≠ p
  | .failed q _ => q ≠ p
  | .drain _ _ => True
  | .invokeCb cb _ => cbRefs p cb = false
  | .invokeH hd _ => handlerRefs p hd = false
  | .thenC _ t c => hOptRefs p t = false ∧ hOptRefs p c = false
  | .construct _ => True
  | .comb _ _ => True
  | .combL _ outer _ _ _ => outer ≠ p

theorem heapRefs_setLog (p : Nat) (h : Heap) (l : List (Handler × JSVal)) :
    heapRefs p { h with log := l } = heapRefs p h := rfl

theorem heapRefs_setComb (p : Nat) (h : Heap) (q : Nat) (c : List JSVal × Nat) :
    heapRefs p (setComb h q c) = heapRefs p h := rfl

theorem objRefs_getObj (p : Nat) (h : Heap) (q : Nat)
    (hh : heapRefs p h = false) : objRefs p (getObj h q) = false := by
  simp only [heapRefs, List.any_eq_false] at hh
  rcases hq : h.objs[q]? with _ | o
  · simp [getObj, List.getD_eq_getElem?_getD, hq, objRefs]
  · have : o ∈ h.objs := List.getElem?_mem hq
    simp [getObj, List.getD_eq_getElem?_getD, hq, hh o this]

theorem heapRefs_setObj (p : Nat) (h : Heap) (q : Nat) (o : PromObj)
    (hh : heapRefs p h = false) (ho : objRefs p o = false) :
    heapRefs p (setObj h q o) = false := by
  simp only [heapRefs, List.any_eq_false] at hh ⊢
  intro x hx
  rcases List.mem_or_eq_of_mem_set hx with hx | hx
  · exact hh x hx
  · simp [hx, ho]

theorem heapRefs_append (p : Nat) (h : Heap) (o : PromObj)
    (hh : heapRefs p h = false) (ho : objRefs p o = false) :
    heapRefs p { h with objs := h.objs ++ [o] } = false := by
  simp only [heapRefs] at hh ⊢
  simp [List.any_append, hh, ho]

theorem objRefs_empty (p : Nat) : objRefs p {} = false := rfl

theorem unsettled_setObj (p q : Nat) (h : Heap) (o : PromObj)
    (hu : Unsettled p h) (hq : q ≠ p) (ho : objRefs p o = false) :
    Unsettled p (setObj h q o) := by
  refine ⟨by simpa [setObj_objs_length] using hu.1, ?_,
    heapRefs_setObj p h q o hu.2.2 ho⟩
  rw [getObj_setObj_ne _ _ _ _ (fun hh => hq hh.symm)]
  exact hu.2.1

theorem objRefs_shape (p : Nat) (o : PromObj) (s : PState) (w : JSVal) :
    objRefs p { o with st := s, val := w } = objRefs p o := rfl

theorem objRefs_then_mem (p : Nat) (o : PromObj) (ho : objRefs p o = false)
    {cb : Callback} (hm : cb ∈ o.thenCbs) : cbRefs p cb = false := by
  simp only [objRefs, Bool.or_eq_false_iff, List.any_eq_false] at ho
  simpa using ho.1 cb hm

theorem objRefs_catch_mem (p : Nat) (o : PromObj) (ho : objRefs p o = false)
    {cb : Callback} (hm : cb ∈ o.catchCbs) : cbRefs p cb = false := by
  simp only [objRefs, Bool.or_eq_false_iff, List.any_eq_false] at ho
  simpa using ho.2 cb hm

theorem objRefs_of_lists (p : Nat) (o : PromObj)
    (h1 : ∀ cb ∈ o.thenCbs, cbRefs p cb = false)
    (h2 : ∀ cb ∈ o.catchCbs, cbRefs p cb = false) : objRefs p o = false := by
  simp only [objRefs, Bool.or_eq_false_iff, List.any_eq_false]
  exact ⟨fun cb hm => by simp [h1 cb hm], fun cb hm => by simp [h2 cb hm]⟩

theorem unsettled_setLog (p : Nat) (h : Heap) (l : List (Handler × JSVal))
    (hu : Unsettled p h) : Unsettled p { h with log := l } :=
  ⟨hu.1, hu.2.1, hu.2.2⟩

theorem unsettled_setComb (p q : Nat) (h : Heap) (c : List JSVal × Nat)
    (hu : Unsettled p h) : Unsettled p (setComb h q c) :=
  ⟨hu.1, hu.2.1, hu.2.2⟩

theorem unsettled_after_fulfill_write (p q : Nat) (h : Heap) (v : JSVal)
    (hu : Unsettled p h) (hqp : q ≠ p) :
    Unsettled p (setObj h q { getObj h q with st := .fulfilled, val := v }) :=
  unsettled_setObj p q h _ hu hqp
    (by rw [objRefs_shape]; exact objRefs_getObj p h q hu.2.2)

theorem unsettled_after_reject_write (p q : Nat) (h : Heap) (e : JSVal)
    (hu : Unsettled p h) (hqp : q ≠ p) :
    Unsettled p (setObj h q { getObj h q with st := .rejected, val := e }) :=
  unsettled_setObj p q h _ hu hqp
    (by rw [objRefs_shape]; exact objRefs_getObj p h q hu.2.2)

theorem unsettled_pop (p q : Nat) (h : Heap) (o : PromObj)
    (hu : Unsettled p h) (ho : objRefs p o = false)
    (hst : o.st = (getObj h q).st) :
    Unsettled p (setObj h q o) := by
  by_cases hqp : q = p
  · subst hqp
    refine ⟨by simpa [setObj_objs_length] using hu.1, ?_,
      heapRefs_setObj _ h _ o hu.2.2 ho⟩
    rw [getObj_setObj_self _ _ _ hu.1, hst]
    exact hu.2.1
  · exact unsettled_setObj p q h o hu hqp ho

theorem unsettled_alloc (p : Nat) (h : Heap) (hu : Unsettled p h) :
    Unsettled p { h with objs := h.objs ++ [{}] } := by
  refine ⟨by have := hu.1; simp; omega, ?_, heapRefs_append p h {} hu.2.2 rfl⟩
  rw [getObj_append_old h {} p (Nat.ne_of_lt hu.1)]
  exact hu.2.1

/- The core frame property: executing any call that does not directly invoke
   p's entry points leaves an unsettled, unreferenced promise p pending and
   unreferenced.  Since then/catch/combinator registrations only ever create
   wrappers targeting freshly allocated promises, and user code never holds a
   stored closure referencing p (heapRefs is false), no sequence of such
   calls can ever settle p. -/
theorem exec_preserves_unsettled :
    ∀ (f : Nat) (c : Call) (h : Heap) (p : Nat),
      Unsettled p h → callAvoids p c → Unsettled p (exec f c h).1 := by
  intro f
  induction f with
  | zero => intro c h p hu _; simpa [exec] using hu
  | succ f ih =>
    intro c h p hu hc
    have hrefs := hu.2.2
    cases c with
    | success q v =>
      have hqp : q ≠ p := hc
      simp only [exec]
      by_cases hst : (getObj h q).st ≠ .pending
      · simpa [hst] using hu
      · simp only [hst, ite_false]
        cases v with
        | prom g =>
          have hav : callAvoids p (.thenC g (some (.entryS q)) (some (.entryF q))) := by
            constructor <;> simp [hOptRefs, handlerRefs, hqp]
          simpa [retU] using ih (.thenC g (some (.entryS q)) (some (.entryF q))) h p hu hav
        | undef =>
          have hset := unsettled_after_fulfill_write p q h .undef hu hqp
          simpa [retU] using ih (.drain q true) _ p hset trivial
        | num n =>
          have hset := unsettled_after_fulfill_write p q h (.num n) hu hqp
          simpa [retU] using ih (.drain q true) _ p hset trivial
        | str s =>
          have hset := unsettled_after_fulfill_write p q h (.str s) hu hqp
          simpa [retU] using ih (.drain q true) _ p hset trivial
        | arr xs =>
          have hset := unsettled_after_fulfill_write p q h (.arr xs) hu hqp
          simpa [retU] using ih (.drain q true) _ p hset trivial
        | record s w =>
          have hset := unsettled_after_fulfill_write p q h (.record s w) hu hqp
          simpa [retU] using ih (.drain q true) _ p hset trivial
        | uncaughtError m =>
          have hset := unsettled_after_fulfill_write p q h (.uncaughtError m) hu hqp
          simpa [retU] using ih (.drain q true) _ p hset trivial
        | refError =>
          have hset := unsettled_after_fulfill_write p q h .refError hu hqp
          simpa [retU] using ih (.drain q true) _ p hset trivial
    | failed q e =>
      have hqp : q ≠ p := hc
      simp only [exec]
      by_cases hst : (getObj h q).st ≠ .pending
      · simpa [hst] using hu
      · simp only [hst, ite_false]
        cases e with
        | prom g => exact hu
        | undef =>
          have hset := unsettled_after_reject_write p q h .undef hu hqp
          by_cases hemp : (getObj h q).catchCbs.length = 0
          · simpa [hemp] using hset
          · simpa [hemp, retU] using ih (.drain q false) _ p hset trivial
        | num n =>
          have hset := unsettled_after_reject_write p q h (.num n) hu hqp
          by_cases hemp : (getObj h q).catchCbs.length = 0
          · simpa [hemp] using hset
          · simpa [hemp, retU] using ih (.drain q false) _ p hset trivial
        | str s =>
          have hset := unsettled_after_reject_write p q h (.str s) hu hqp
          by_cases hemp : (getObj h q).catchCbs.length = 0
          · simpa [hemp] using hset
          · simpa [hemp, retU] using ih (.drain q false) _ p hset trivial
        | arr xs =>
          have hset := unsettled_after_reject_write p q h (.arr xs) hu hqp
          by_cases hemp : (getObj h q).catchCbs.length = 0
          · simpa [hemp] using hset
          · simpa [hemp, retU] using ih (.drain q false) _ p hset trivial
        | record s w =>
          have hset := unsettled_after_reject_write p q h (.record s w) hu hqp
          by_cases hemp : (getObj h q).catchCbs.length = 0
          · simpa [hemp] using hset
          · simpa [hemp, retU] using ih (.drain q false) _ p hset trivial
        | uncaughtError m =>
          have hset := unsettled_after_reject_write p q h (.uncaughtError m) hu hqp
          by_cases hemp : (getObj h q).catchCbs.length = 0
          · simpa [hemp] using hset
          · simpa [hemp, retU] using ih (.drain q false) _ p hset trivial
        | refError =>
          have hset := unsettled_after_reject_write p q h .refError hu hqp
          by_cases hemp : (getObj h q).catchCbs.length = 0
          · simpa [hemp] using hset
          · simpa [hemp, retU] using ih (.drain q false) _ p hset trivial
    | drain q isThen =>
      have hobjq := objRefs_getObj p h q hrefs
      cases isThen with
      | true =>
        simp only [exec]
        rcases hl : (getObj h q).thenCbs with _ | ⟨cb, rest⟩
        · simpa [hl] using hu
        · have hcb : cbRefs p cb = false :=
            objRefs_then_mem p _ hobjq (by rw [hl]; exact List.mem_cons_self _ _)
          have hrest : objRefs p { getObj h q with thenCbs := rest } = false := by
            refine objRefs_of_lists p _ ?_ ?_
            · intro x hx
              exact objRefs_then_mem p _ hobjq (by rw [hl]; exact List.mem_cons_of_mem _ hx)
            · intro x hx
              exact objRefs_catch_mem p _ hobjq hx
          have hset : Unsettled p (setObj h q { getObj h q with thenCbs := rest }) :=
            unsettled_pop p q h _ hu hrest rfl
          rcases hE : exec f (.invokeCb cb (getObj h q).val)
              (setObj h q { getObj h q with thenCbs := rest }) with ⟨h1, r1⟩
          have hu1 : Unsettled p h1 := by
            have := ih (.invokeCb cb (getObj h q).val) _ p hset hcb
            rwa [hE] at this
          cases r1 with
          | ok v1 => simpa [hl, hE, bindOk] using ih (.drain q true) h1 p hu1 trivial
          | thrown e1 => simpa [hl, hE, bindOk] using hu1
          | nofuel => simpa [hl, hE, bindOk] using hu1
      | false =>
        simp only [exec]
        rcases hl : (getObj h q).catchCbs with _ | ⟨cb, rest⟩
        · simpa [hl] using hu
        · have hcb : cbRefs p cb = false :=
            objRefs_catch_mem p _ hobjq (by rw [hl]; exact List.mem_cons_self _ _)
          have hrest : objRefs p { getObj h q with catchCbs := rest } = false := by
            refine objRefs_of_lists p _ ?_ ?_
            · intro x hx
              exact objRefs_then_mem p _ hobjq hx
            · intro x hx
              exact objRefs_catch_mem p _ hobjq (by rw [hl]; exact List.mem_cons_of_mem _ hx)
          have hset : Unsettled p (setObj h q { getObj h q with catchCbs := rest }) :=
            unsettled_pop p q h _ hu hrest rfl
          rcases hE : exec f (.invokeCb cb (getObj h q).val)
              (setObj h q { getObj h q with catchCbs := rest }) with ⟨h1, r1⟩
          have hu1 : Unsettled p h1 := by
            have := ih (.invokeCb cb (getObj h q).val) _ p hset hcb
            rwa [hE] at this
          cases r1 with
          | ok v1 => simpa [hl, hE, bindOk] using ih (.drain q false) h1 p hu1 trivial
          | thrown e1 => simpa [hl, hE, bindOk] using hu1
          | nofuel => simpa [hl, hE, bindOk] using hu1
    | invokeCb cb arg =>
      cases cb with
      | thenWrapper hnd tgt =>
        have htgt : tgt ≠ p := by
          simp only [callAvoids, cbRefs, Bool.or_eq_false_iff] at hc
          simpa using hc.1
        cases hnd with
        | none =>
          simp only [exec]
          simpa [retU] using ih (.success tgt arg) h p hu htgt
        | some hd =>
          have hhd : handlerRefs p hd = false := by
            simp only [callAvoids, cbRefs, Bool.or_eq_false_iff, hOptRefs] at hc
            exact hc.2
          simp only [exec]
          rcases hE : exec f (.invokeH hd arg) h with ⟨h1, r1⟩
          have hu1 : Unsettled p h1 := by
            have := ih (.invokeH hd arg) h p hu hhd
            rwa [hE] at this
          cases r1 with
          | ok v1 =>
            rcases hE2 : exec f (.success tgt v1) h1 with ⟨h2, r2⟩
            have hu2 : Unsettled p h2 := by
              have := ih (.success tgt v1) h1 p hu1 htgt
              rwa [hE2] at this
            cases r2 with
            | ok v2 => simpa [hE, hE2, bindOk, tryC, retU] using hu2
            | thrown e2 =>
              have := ih (.failed tgt e2) h2 p hu2 htgt
              simpa [hE, hE2, bindOk, tryC, retU] using this
            | nofuel => simpa [hE, hE2, bindOk, tryC, retU] using hu2
          | thrown e1 =>
            have := ih (.failed tgt e1) h1 p hu1 htgt
            simpa [hE, bindOk, tryC, retU] using this
          | nofuel => simpa [hE, bindOk, tryC, retU] using hu1
      | catchWrapper hnd tgt =>
        have htgt : tgt ≠ p := by
          simp only [callAvoids, cbRefs, Bool.or_eq_false_iff] at hc
          simpa using hc.1
        cases hnd with
        | none =>
          simp only [exec]
          simpa [retU] using ih (.failed tgt arg) h p hu htgt
        | some hd =>
          have hhd : handlerRefs p hd = false := by
            simp only [callAvoids, cbRefs, Bool.or_eq_false_iff, hOptRefs] at hc
            exact hc.2
          simp only [exec]
          rcases hE : exec f (.invokeH hd arg) h with ⟨h1, r1⟩
          have hu1 : Unsettled p h1 := by
            have := ih (.invokeH hd arg) h p hu hhd
            rwa [hE] at this
          cases r1 with
          | ok v1 =>
            rcases hE2 : exec f (.success tgt v1) h1 with ⟨h2, r2⟩
            have hu2 : Unsettled p h2 := by
              have := ih (.success tgt v1) h1 p hu1 htgt
              rwa [hE2] at this
            cases r2 with
            | ok v2 => simpa [hE, hE2, bindOk, tryC, retU] using hu2
            | thrown e2 =>
              have := ih (.failed tgt e2) h2 p hu2 htgt
              simpa [hE, hE2, bindOk, tryC, retU] using this
            | nofuel => simpa [hE, hE2, bindOk, tryC, retU] using hu2
          | thrown e1 =>
            have := ih (.failed tgt e1) h1 p hu1 htgt
            simpa [hE, bindOk, tryC, retU] using this
          | nofuel => simpa [hE, bindOk, tryC, retU] using hu1
    | invokeH hd arg =>
      have hlog : Unsettled p { h with log := (hd, arg) :: h.log } :=
        unsettled_setLog p h _ hu
      cases hd with
      | hconst v => exact hlog
      | hident => exact hlog
      | hthrow e => exact hlog
      | huser t => exact hlog
      | entryS q =>
        have hqp : q ≠ p := by simpa [callAvoids, handlerRefs] using hc
        simp only [exec]
        simpa [retU] using ih (.success q arg) _ p hlog hqp
      | entryF q =>
        have hqp : q ≠ p := by simpa [callAvoids, handlerRefs] using hc
        simp only [exec]
        simpa [retU] using ih (.failed q arg) _ p hlog hqp
      | allThen o i n =>
        have hop : o ≠ p := by simpa [callAvoids, handlerRefs] using hc
        simp only [exec]
        rcases hg : getComb { h with log := (Handler.allThen o i n, arg) :: h.log } o
          with ⟨rs, cnt⟩
        have hcmb : Unsettled p (setComb { h with log :=
            (Handler.allThen o i n, arg) :: h.log } o (setIdxGrow rs i arg, cnt + 1)) :=
          unsettled_setComb p o _ _ hlog
        by_cases hif : cnt + 1 = n
        · simpa [hg, hif, retU] using
            ih (.success o (.arr (setIdxGrow rs i arg))) _ p hcmb hop
        · simpa [hg, hif] using hcmb
      | allSettledThen o i n =>
        have hop : o ≠ p := by simpa [callAvoids, handlerRefs] using hc
        simp only [exec]
        rcases hg : getComb { h with log := (Handler.allSettledThen o i n, arg) :: h.log } o
          with ⟨rs, cnt⟩
        have hcmb : Unsettled p (setComb { h with log :=
            (Handler.allSettledThen o i n, arg) :: h.log } o
            (setIdxGrow rs i (.record "fulfilled" arg), cnt)) :=
          unsettled_setComb p o _ _ hlog
        by_cases hif : cnt = n
        · simpa [hg, hif, retU] using
            ih (.success o (.arr (setIdxGrow rs i (.record "fulfilled" arg)))) _ p hcmb hop
        · simpa [hg, hif] using hcmb
      | allSettledCatch o i n =>
        have hop : o ≠ p := by simpa [callAvoids, handlerRefs] using hc
        simp only [exec]
        rcases hg : getComb { h with log := (Handler.allSettledCatch o i n, arg) :: h.log } o
          with ⟨rs, cnt⟩
        have hcmb : Unsettled p (setComb { h with log :=
            (Handler.allSettledCatch o i n, arg) :: h.log } o
            (setIdxGrow rs i (.record "rejected" arg), cnt)) :=
          unsettled_setComb p o _ _ hlog
        by_cases hif : cnt = n
        · simpa [hg, hif, retU] using
            ih (.success o (.arr (setIdxGrow rs i (.record "rejected" arg)))) _ p hcmb hop
        · simpa [hg, hif] using hcmb
      | allCatch o =>
        have hop : o ≠ p := by simpa [callAvoids, handlerRefs] using hc
        simp only [exec]
        simpa [retU] using ih (.failed o arg) _ p hlog hop
      | anyThen o =>
        have hop : o ≠ p := by simpa [callAvoids, handlerRefs] using hc
        simp only [exec]
        simpa [retU] using ih (.success o arg) _ p hlog hop
      | anyCatch o i n =>
        simp only [exec]
        rcases hg : getComb { h with log := (Handler.anyCatch o i n, arg) :: h.log } o
          with ⟨rs, cnt⟩
        simpa [hg] using unsettled_setComb p o _ (rs, cnt + 1) hlog
    | thenC q t c =>
      obtain ⟨ht, hcc⟩ : hOptRefs p t = false ∧ hOptRefs p c = false := hc
      have hu1 : Unsettled p { h with objs := h.objs ++ [{}] } := unsettled_alloc p h hu
      have hwref : cbRefs p (.thenWrapper t h.objs.length) = false := by
        simp [cbRefs, ht, Nat.ne_of_gt hu.1]
      have hwref2 : cbRefs p (.catchWrapper c h.objs.length) = false := by
        simp [cbRefs, hcc, Nat.ne_of_gt hu.1]
      have hobjq := objRefs_getObj p { h with objs := h.objs ++ [{}] } q hu1.2.2
      have hw : objRefs p
          { getObj { h with objs := h.objs ++ [{}] } q with
            thenCbs := .thenWrapper t h.objs.length ::
              (getObj { h with objs := h.objs ++ [{}] } q).thenCbs,
            catchCbs := .catchWrapper c h.objs.length ::
              (getObj { h with objs := h.objs ++ [{}] } q).catchCbs } = false := by
        refine objRefs_of_lists p _ ?_ ?_
        · intro x hx
          rcases List.mem_cons.mp hx with hx | hx
          · rw [hx]; exact hwref
          · exact objRefs_then_mem p _ hobjq hx
        · intro x hx
          rcases List.mem_cons.mp hx with hx | hx
          · rw [hx]; exact hwref2
          · exact objRefs_catch_mem p _ hobjq hx
      have hu2 : Unsettled p (setObj { h with objs := h.objs ++ [{}] } q
          { getObj { h with objs := h.objs ++ [{}] } q with
            thenCbs := .thenWrapper t h.objs.length ::
              (getObj { h with objs := h.objs ++ [{}] } q).thenCbs,
            catchCbs := .catchWrapper c h.objs.length ::
              (getObj { h with objs := h.objs ++ [{}] } q).catchCbs }) :=
        unsettled_pop p q _ _ hu1 hw rfl
      have hchild : h.objs.length ≠ p := Nat.ne_of_gt hu.1
      simp only [exec, allocP]
      cases hs2 : (getObj (setObj { h with objs := h.objs ++ [{}] } q
          { getObj { h with objs := h.objs ++ [{}] } q with
            thenCbs := .thenWrapper t h.objs.length ::
              (getObj { h with objs := h.objs ++ [{}] } q).thenCbs,
            catchCbs := .catchWrapper c h.objs.length ::
              (getObj { h with objs := h.objs ++ [{}] } q).catchCbs }) q).st with
        | pending => simpa [hs2, bindOk, tryC] using hu2
        | fulfilled =>
          rcases hE : exec f (.drain q true) (setObj { h with objs := h.objs ++ [{}] } q
              { getObj { h with objs := h.objs ++ [{}] } q with
                thenCbs := .thenWrapper t h.objs.length ::
                  (getObj { h with objs := h.objs ++ [{}] } q).thenCbs,
                catchCbs := .catchWrapper c h.objs.length ::
                  (getObj { h with objs := h.objs ++ [{}] } q).catchCbs }) with ⟨h3, r3⟩
          have hu3 : Unsettled p h3 := by
            have := ih (.drain q true) _ p hu2 trivial
            rwa [hE] at this
          cases r3 with
          | ok v3 => simpa [hs2, hE, bindOk, tryC] using hu3
          | thrown e3 =>
            rcases hE4 : exec f (.failed h.objs.length e3) h3 with ⟨h4, r4⟩
            have hu4 : Unsettled p h4 := by
              have := ih (.failed h.objs.length e3) h3 p hu3 hchild
              rwa [hE4] at this
            cases r4 with
            | ok v4 => simpa [hs2, hE, hE4, bindOk, tryC] using hu4
            | thrown e4 => simpa [hs2, hE, hE4, bindOk, tryC] using hu4
            | nofuel => simpa [hs2, hE, hE4, bindOk, tryC] using hu4
          | nofuel => simpa [hs2, hE, bindOk, tryC] using hu3
        | rejected =>
          rcases hE : exec f (.drain q false) (setObj { h with objs := h.objs ++ [{}] } q
              { getObj { h with objs := h.objs ++ [{}] } q with
                thenCbs := .thenWrapper t h.objs.length ::
                  (getObj { h with objs := h.objs ++ [{}] } q).thenCbs,
                catchCbs := .catchWrapper c h.objs.length ::
                  (getObj { h with objs := h.objs ++ [{}] } q).catchCbs }) with ⟨h3, r3⟩
          have hu3 : Unsettled p h3 := by
            have := ih (.drain q false) _ p hu2 trivial
            rwa [hE] at this
          cases r3 with
          | ok v3 => simpa [hs2, hE, bindOk, tryC] using hu3
          | thrown e3 =>
            rcases hE4 : exec f (.failed h.objs.length e3) h3 with ⟨h4, r4⟩
            have hu4 : Unsettled p h4 := by
              have := ih (.failed h.objs.length e3) h3 p hu3 hchild
              rwa [hE4] at this
            cases r4 with
            | ok v4 => simpa [hs2, hE, hE4, bindOk, tryC] using hu4
            | thrown e4 => simpa [hs2, hE, hE4, bindOk, tryC] using hu4
            | nofuel => simpa [hs2, hE, hE4, bindOk, tryC] using hu4
          | nofuel => simpa [hs2, hE, bindOk, tryC] using hu3
    | construct r =>
      have hu1 : Unsettled p { h with objs := h.objs ++ [{}] } := unsettled_alloc p h hu
      have hchild : h.objs.length ≠ p := Nat.ne_of_gt hu.1
      simp only [exec, allocP]
      have hstep : ∀ (x : Heap × Outcome), Unsettled p x.1 →
          Unsettled p (bindOk (tryC x fun h2 e => exec f (.failed h.objs.length e) h2)
            (fun h2 _ => (h2, Outcome.ok (.prom h.objs.length)))).1 := by
        intro x hx
        rcases x with ⟨hh, rr⟩
        cases rr with
        | ok v => simpa [bindOk, tryC] using hx
        | thrown e =>
          rcases hE : exec f (.failed h.objs.length e) hh with ⟨h2, r2⟩
          have hu2 : Unsettled p h2 := by
            have := ih (.failed h.objs.length e) hh p hx hchild
            rwa [hE] at this
          cases r2 with
          | ok v2 => simpa [bindOk, tryC, hE] using hu2
          | thrown e2 => simpa [bindOk, tryC, hE] using hu2
          | nofuel => simpa [bindOk, tryC, hE] using hu2
        | nofuel => simpa [bindOk, tryC] using hx
      cases r with
      | rwith v =>
        rcases hE : exec f (.success h.objs.length v) { h with objs := h.objs ++ [{}] }
          with ⟨h1, r1⟩
        have hu2 : Unsettled p h1 := by
          have := ih (.success h.objs.length v) _ p hu1 hchild
          rwa [hE] at this
        simpa [hE] using hstep (h1, r1) hu2
      | rejwith e =>
        rcases hE : exec f (.failed h.objs.length e) { h with objs := h.objs ++ [{}] }
          with ⟨h1, r1⟩
        have hu2 : Unsettled p h1 := by
          have := ih (.failed h.objs.length e) _ p hu1 hchild
          rwa [hE] at this
        simpa [hE] using hstep (h1, r1) hu2
      | rthrow e =>
        simpa using hstep ({ h with objs := h.objs ++ [{}] }, .thrown e) hu1
      | rnothing =>
        simpa using hstep ({ h with objs := h.objs ++ [{}] }, .ok .undef) hu1
    | comb k ps =>
      have hu1 : Unsettled p { h with objs := h.objs ++ [{}] } := unsettled_alloc p h hu
      have houter : h.objs.length ≠ p := Nat.ne_of_gt hu.1
      simp only [exec, allocP]
      have hstep : ∀ (x : Heap × Outcome), Unsettled p x.1 →
          Unsettled p (bindOk (tryC x fun h2 e => exec f (.failed h.objs.length e) h2)
            (fun h2 _ => (h2, Outcome.ok (.prom h.objs.length)))).1 := by
        intro x hx
        rcases x with ⟨hh, rr⟩
        cases rr with
        | ok v => simpa [bindOk, tryC] using hx
        | thrown e =>
          rcases hE : exec f (.failed h.objs.length e) hh with ⟨h2, r2⟩
          have hu2 : Unsettled p h2 := by
            have := ih (.failed h.objs.length e) hh p hx houter
            rwa [hE] at this
          cases r2 with
          | ok v2 => simpa [bindOk, tryC, hE] using hu2
          | thrown e2 => simpa [bindOk, tryC, hE] using hu2
          | nofuel => simpa [bindOk, tryC, hE] using hu2
        | nofuel => simpa [bindOk, tryC] using hx
      have hloop : ∀ (h0 : Heap), Unsettled p h0 →
          Unsettled p (exec f (.combL k h.objs.length ps.length 0 ps) h0).1 := by
        intro h0 hx
        exact ih (.combL k h.objs.length ps.length 0 ps) h0 p hx houter
      cases k with
      | allK =>
        rcases hE : exec f (.combL .allK h.objs.length ps.length 0 ps)
            (setComb { h with objs := h.objs ++ [{}] } h.objs.length ([], 0))
          with ⟨h1, r1⟩
        have hu2 : Unsettled p h1 := by
          have := hloop _ (unsettled_setComb p h.objs.length { h with objs := h.objs ++ [{}] } ([], 0) hu1)
          rwa [hE] at this
        simpa [hE] using hstep (h1, r1) hu2
      | allSettledK =>
        rcases hE : exec f (.combL .allSettledK h.objs.length ps.length 0 ps)
            (setComb { h with objs := h.objs ++ [{}] } h.objs.length ([], 0))
          with ⟨h1, r1⟩
        have hu2 : Unsettled p h1 := by
          have := hloop _ (unsettled_setComb p h.objs.length { h with objs := h.objs ++ [{}] } ([], 0) hu1)
          rwa [hE] at this
        simpa [hE] using hstep (h1, r1) hu2
      | anyK =>
        rcases hE : exec f (.combL .anyK h.objs.length ps.length 0 ps)
            (setComb { h with objs := h.objs ++ [{}] } h.objs.length ([], 0))
          with ⟨h1, r1⟩
        have hu2 : Unsettled p h1 := by
          have := hloop _ (unsettled_setComb p h.objs.length { h with objs := h.objs ++ [{}] } ([], 0) hu1)
          rwa [hE] at this
        simpa [hE] using hstep (h1, r1) hu2
      | raceK =>
        rcases hE : exec f (.combL .raceK h.objs.length ps.length 0 ps)
            { h with objs := h.objs ++ [{}] } with ⟨h1, r1⟩
        have hu2 : Unsettled p h1 := by
          have := hloop _ hu1
          rwa [hE] at this
        simpa [hE] using hstep (h1, r1) hu2
    | combL k outer n i ps =>
      have houter : outer ≠ p := hc
      cases ps with
      | nil => simpa [exec] using hu
      | cons p0 rest =>
        have hcont : ∀ (x : Heap × Outcome), Unsettled p x.1 →
            Unsettled p (bindOk x (fun h2 _ => exec f (.combL k outer n (i + 1) rest) h2)).1 := by
          intro x hx
          rcases x with ⟨hh, rr⟩
          cases rr with
          | ok v => simpa [bindOk] using ih (.combL k outer n (i + 1) rest) hh p hx houter
          | thrown e => simpa [bindOk] using hx
          | nofuel => simpa [bindOk] using hx
        have hreg : ∀ (t1 c2 : Option Handler) (h0 : Heap), Unsettled p h0 →
            hOptRefs p t1 = false → hOptRefs p c2 = false →
            Unsettled p (bindOk (exec f (.thenC p0 t1 none) h0) (fun h2 v =>
              match v with
              | .prom child => exec f (.thenC child none c2) h2
              | v => (h2, .ok v))).1 := by
          intro t1 c2 h0 hx ht1 hc2
          rcases hE : exec f (.thenC p0 t1 none) h0 with ⟨h1, r1⟩
          have hu1 : Unsettled p h1 := by
            have := ih (.thenC p0 t1 none) h0 p hx ⟨ht1, rfl⟩
            rwa [hE] at this
          cases r1 with
          | ok v =>
            cases v with
            | prom child =>
              simpa [hE, bindOk] using ih (.thenC child none c2) h1 p hu1 ⟨rfl, hc2⟩
            | undef => simpa [hE, bindOk] using hu1
            | num n2 => simpa [hE, bindOk] using hu1
            | str s2 => simpa [hE, bindOk] using hu1
            | arr xs2 => simpa [hE, bindOk] using hu1
            | record s2 w2 => simpa [hE, bindOk] using hu1
            | uncaughtError m2 => simpa [hE, bindOk] using hu1
            | refError => simpa [hE, bindOk] using hu1
          | thrown e => simpa [hE, bindOk] using hu1
          | nofuel => simpa [hE, bindOk] using hu1
        cases k with
        | allK =>
          simp only [exec]
          exact hcont _ (hreg (some (.allThen outer i n)) (some (.allCatch outer)) h hu
            (by simp [hOptRefs, handlerRefs, houter])
            (by simp [hOptRefs, handlerRefs, houter]))
        | raceK =>
          simp only [exec]
          exact hcont _ (hreg (some (.entryS outer)) (some (.entryF outer)) h hu
            (by simp [hOptRefs, handlerRefs, houter])
            (by simp [hOptRefs, handlerRefs, houter]))
        | anyK =>
          simp only [exec]
          exact hcont _ (hreg (some (.anyThen outer)) (some (.anyCatch outer i n)) h hu
            (by simp [hOptRefs, handlerRefs, houter])
            (by simp [hOptRefs, handlerRefs, houter]))
        | allSettledK =>
          simp only [exec]
          rcases hg : getComb h outer with ⟨rs, cnt⟩
          have hx := unsettled_setComb p outer h (rs, cnt + 1) hu
          simpa [hg] using hcont _ (hreg (some (.allSettledThen outer i n))
            (some (.allSettledCatch outer i n)) (setComb h outer (rs, cnt + 1)) hx
            (by simp [hOptRefs, handlerRefs, houter])
            (by simp [hOptRefs, handlerRefs, houter]))

theorem comb_empty_step (f : Nat) (k : CombKind) (h : Heap)
    (hfresh : heapRefs h.objs.length h = false) :
    (exec (f + 2) (.comb k []) h).2 = .ok (.prom h.objs.length) ∧
    Unsettled h.objs.length (exec (f + 2) (.comb k []) h).1 := by
  have hlen : h.objs.length < h.objs.length + 1 := Nat.lt_succ_self _
  have hpend : (getObj { h with objs := h.objs ++ [{}] } h.objs.length).st = .pending := by
    rw [getObj_append_fresh]
  have hhr : heapRefs h.objs.length { h with objs := h.objs ++ [{}] } = false :=
    heapRefs_append _ h {} hfresh rfl
  cases k with
  | allK =>
    constructor
    · simp [exec, allocP, bindOk, tryC]
    · refine ⟨?_, ?_, ?_⟩ <;>
        simp [exec, allocP, bindOk, tryC, setComb, hpend, hhr, heapRefs, getObj,
          List.getD_eq_getElem?_getD, List.getElem?_concat_length]
      · simpa [heapRefs] using hhr
  | allSettledK =>
    constructor
    · simp [exec, allocP, bindOk, tryC]
    · refine ⟨?_, ?_, ?_⟩ <;>
        simp [exec, allocP, bindOk, tryC, setComb, hpend, hhr, heapRefs, getObj,
          List.getD_eq_getElem?_getD, List.getElem?_concat_length]
      · simpa [heapRefs] using hhr
  | anyK =>
    constructor
    · simp [exec, allocP, bindOk, tryC]
    · refine ⟨?_, ?_, ?_⟩ <;>
        simp [exec, allocP, bindOk, tryC, setComb, hpend, hhr, heapRefs, getObj,
          List.getD_eq_getElem?_getD, List.getElem?_concat_length]
      · simpa [heapRefs] using hhr
  | raceK =>
    constructor
    · simp [exec, allocP, bindOk, tryC]
    · refine ⟨?_, ?_, ?_⟩ <;>
        simp [exec, allocP, bindOk, tryC, hpend, hhr, heapRefs, getObj,
          List.getD_eq_getElem?_getD, List.getElem?_concat_length]
      · simpa [heapRefs] using hhr

/-- C10: called on the empty input sequence, each combinator (all, allSettled,
race, any — kinds `CombKind`) returns a future that never settles.  Part one:
the call returns the freshly allocated future, which is Pending, and the heap
holds no stored closure referencing its entry points (`Unsettled`): the
resolve/reject capabilities were only captured by per-input continuations and
there are no inputs.  Part two (the "forever" half): executing ANY further
call that does not itself invoke that future's private entry points — which
nothing can, as they are unexposed and unreferenced; `callAvoids` excludes
only direct invocations of them — preserves this: the future stays Pending
and unreferenced, under any sequence of constructions, registrations,
combinator calls and settlements of other futures.  (Standard promises would
instead fulfil all([]) and allSettled([]) immediately with an empty
sequence.) -/
theorem C10_empty_combinators_never_settle :
    (∀ (f : Nat) (h : Heap), heapRefs h.objs.length h = false →
      ∀ k : CombKind,
      (exec (f + 2) (.comb k []) h).2 = .ok (.prom h.objs.length) ∧
      (getObj (exec (f + 2) (.comb k []) h).1 h.objs.length).st = .pending ∧
      Unsettled h.objs.length (exec (f + 2) (.comb k []) h).1) ∧
    (∀ (f : Nat) (c : Call) (h : Heap) (p : Nat),
      Unsettled p h → callAvoids p c → Unsettled p (exec f c h).1) := by
  constructor
  · intro f h hfresh k
    obtain ⟨ho, hun⟩ := comb_empty_step f k h hfresh
    exact ⟨ho, hun.2.1, hun⟩
  · exact exec_preserves_unsettled

/-- Witness for C10: all([]) on the empty heap returns pending future 0,
which remains pending and unreferenced after a further unrelated
construction. -/
theorem C10_empty_combinators_never_settle_witness :
    (heapRefs emptyHeap.objs.length emptyHeap = false ∧
      (exec 10 (.comb .allK []) emptyHeap).2 = .ok (.prom 0) ∧
      (getObj (exec 10 (.comb .allK []) emptyHeap).1 0).st = .pending) ∧
    (Unsettled 0 (exec 10 (.comb .allK []) emptyHeap).1 ∧
      callAvoids 0 (.construct (.rwith (.num 1))) ∧
      Unsettled 0 (exec 10 (.construct (.rwith (.num 1)))
        (exec 10 (.comb .allK []) emptyHeap).1).1) :=
  ⟨⟨rfl, (C10_empty_combinators_never_settle.1 8 emptyHeap rfl .allK).1,
    (C10_empty_combinators_never_settle.1 8 emptyHeap rfl .allK).2.1⟩,
   ⟨⟨by decide, rfl, rfl⟩, trivial,
    C10_empty_combinators_never_settle.2 10 (.construct (.rwith (.num 1)))
      (exec 10 (.comb .allK []) emptyHeap).1 0 ⟨by decide, rfl, rfl⟩ trivial⟩⟩

/- A settled promise is frozen: its state and value are never changed again
   by ANY execution step whatsoever, since the only writes to them sit behind
   the settle-once pending guard.  (Callback queues may still shrink or grow;
   state and value cannot.) -/

def Frozen (p : Nat) (h h2 : Heap) : Prop :=
  (getObj h2 p).st = (getObj h p).st ∧ (getObj h2 p).val = (getObj h p).val

theorem frozen_rfl (p : Nat) (h : Heap) : Frozen p h h := ⟨rfl, rfl⟩

theorem frozen_trans (p : Nat) (h1 h2 h3 : Heap) (a : Frozen p h1 h2)
    (b : Frozen p h2 h3) : Frozen p h1 h3 :=
  ⟨b.1.trans a.1, b.2.trans a.2⟩

theorem frozen_setObj_ne (p q : Nat) (h : Heap) (o : PromObj) (hq : q ≠ p) :
    Frozen p h (setObj h q o) := by
  constructor <;> rw [getObj_setObj_ne _ _ _ _ (fun hh => hq hh.symm)]

theorem frozen_setObj_lists (p : Nat) (h : Heap) (o : PromObj)
    (hst : o.st = (getObj h p).st) (hval : o.val = (getObj h p).val) :
    Frozen p h (setObj h p o) := by
  by_cases hlt : p < h.objs.length
  · constructor <;> rw [getObj_setObj_self _ _ _ hlt]
    · exact hst
    · exact hval
  · have hno : setObj h p o = h := by
      show ({ h with objs := h.objs.set p o } : Heap) = h
      rw [List.set_eq_of_length_le (by omega)]
    rw [hno]
    exact frozen_rfl p h

theorem Frozen.settled (p : Nat) (h h2 : Heap) (fr : Frozen p h h2)
    (hp : (getObj h p).st ≠ .pending) : (getObj h2 p).st ≠ .pending := by
  rw [fr.1]; exact hp

theorem frozen_set_keep (p q : Nat) (h : Heap) (o : PromObj)
    (hst : o.st = (getObj h q).st) (hval : o.val = (getObj h q).val) :
    Frozen p h (setObj h q o) := by
  rcases eq_or_ne q p with hqp | hqp
  · subst hqp
    exact frozen_setObj_lists q h o hst hval
  · exact frozen_setObj_ne p q h o hqp

theorem settled_lt (p : Nat) (h : Heap) (hp : (getObj h p).st ≠ .pending) :
    p < h.objs.length := by
  by_contra hlt
  apply hp
  have hobj : getObj h p = {} := by
    simp [getObj, List.getD_eq_getElem?_getD,
      List.getElem?_eq_none (Nat.le_of_not_lt hlt)]
  rw [hobj]

theorem frozen_alloc (p : Nat) (h : Heap) (hp : (getObj h p).st ≠ .pending) :
    Frozen p h { h with objs := h.objs ++ [{}] } := by
  constructor <;>
    rw [getObj_append_old h {} p (Nat.ne_of_lt (settled_lt p h hp))]

theorem frozen_setLog (p : Nat) (h : Heap) (l : List (Handler × JSVal)) :
    Frozen p h { h with log := l } := ⟨rfl, rfl⟩

theorem frozen_setComb (p q : Nat) (h : Heap) (cc : List JSVal × Nat) :
    Frozen p h (setComb h q cc) := ⟨rfl, rfl⟩

/- Once settled, a promise's state and value are frozen under EVERY further
   execution step: nothing in the interpreter can ever change them again. -/
theorem exec_frozen :
    ∀ (f : Nat) (c : Call) (h : Heap) (p : Nat),
      (getObj h p).st ≠ .pending → Frozen p h (exec f c h).1 := by
  intro f
  induction f with
  | zero => intro c h p _; simpa [exec] using frozen_rfl p h
  | succ f ih =>
    intro c h p hp
    cases c with
    | success q v =>
      simp only [exec]
      by_cases hst : (getObj h q).st ≠ .pending
      · simpa [hst] using frozen_rfl p h
      · have hqst : (getObj h q).st = .pending := not_not.mp hst
        have hqp : q ≠ p := fun hh => hp (hh ▸ hqst)
        simp only [hst, ite_false]
        cases v with
        | prom g =>
          simpa [retU] using
            ih (.thenC g (some (.entryS q)) (some (.entryF q))) h p hp
        | undef =>
          have fr1 := frozen_setObj_ne p q h
            { getObj h q with st := .fulfilled, val := .undef } hqp
          have fr2 := ih (.drain q true) _ p (Frozen.settled p _ _ fr1 hp)
          simpa [retU] using frozen_trans p _ _ _ fr1 fr2
        | num n =>
          have fr1 := frozen_setObj_ne p q h
            { getObj h q with st := .fulfilled, val := .num n } hqp
          have fr2 := ih (.drain q true) _ p (Frozen.settled p _ _ fr1 hp)
          simpa [retU] using frozen_trans p _ _ _ fr1 fr2
        | str s =>
          have fr1 := frozen_setObj_ne p q h
            { getObj h q with st := .fulfilled, val := .str s } hqp
          have fr2 := ih (.drain q true) _ p (Frozen.settled p _ _ fr1 hp)
          simpa [retU] using frozen_trans p _ _ _ fr1 fr2
        | arr xs =>
          have fr1 := frozen_setObj_ne p q h
            { getObj h q with st := .fulfilled, val := .arr xs } hqp
          have fr2 := ih (.drain q true) _ p (Frozen.settled p _ _ fr1 hp)
          simpa [retU] using frozen_trans p _ _ _ fr1 fr2
        | record s w =>
          have fr1 := frozen_setObj_ne p q h
            { getObj h q with st := .fulfilled, val := .record s w } hqp
          have fr2 := ih (.drain q true) _ p (Frozen.settled p _ _ fr1 hp)
          simpa [retU] using frozen_trans p _ _ _ fr1 fr2
        | uncaughtError m =>
          have fr1 := frozen_setObj_ne p q h
            { getObj h q with st := .fulfilled, val := .uncaughtError m } hqp
          have fr2 := ih (.drain q true) _ p (Frozen.settled p _ _ fr1 hp)
          simpa [retU] using frozen_trans p _ _ _ fr1 fr2
        | refError =>
          have fr1 := frozen_setObj_ne p q h
            { getObj h q with st := .fulfilled, val := .refError } hqp
          have fr2 := ih (.drain q true) _ p (Frozen.settled p _ _ fr1 hp)
          simpa [retU] using frozen_trans p _ _ _ fr1 fr2
    | failed q e =>
      simp only [exec]
      by_cases hst : (getObj h q).st ≠ .pending
      · simpa [hst] using frozen_rfl p h
      · have hqst : (getObj h q).st = .pending := not_not.mp hst
        have hqp : q ≠ p := fun hh => hp (hh ▸ hqst)
        simp only [hst, ite_false]
        cases e with
        | prom g => exact frozen_rfl p h
        | undef =>
          have fr1 := frozen_setObj_ne p q h
            { getObj h q with st := .rejected, val := .undef } hqp
          have fr2 := ih (.drain q false) _ p (Frozen.settled p _ _ fr1 hp)
          by_cases hemp : (getObj h q).catchCbs.length = 0
          · simpa [hemp] using fr1
          · simpa [hemp, retU] using frozen_trans p _ _ _ fr1 fr2
        | num n =>
          have fr1 := frozen_setObj_ne p q h
            { getObj h q with st := .rejected, val := .num n } hqp
          have fr2 := ih (.drain q false) _ p (Frozen.settled p _ _ fr1 hp)
          by_cases hemp : (getObj h q).catchCbs.length = 0
          · simpa [hemp] using fr1
          · simpa [hemp, retU] using frozen_trans p _ _ _ fr1 fr2
        | str s =>
          have fr1 := frozen_setObj_ne p q h
            { getObj h q with st := .rejected, val := .str s } hqp
          have fr2 := ih (.drain q false) _ p (Frozen.settled p _ _ fr1 hp)
          by_cases hemp : (getObj h q).catchCbs.length = 0
          · simpa [hemp] using fr1
          · simpa [hemp, retU] using frozen_trans p _ _ _ fr1 fr2
        | arr xs =>
          have fr1 := frozen_setObj_ne p q h
            { getObj h q with st := .rejected, val := .arr xs } hqp
          have fr2 := ih (.drain q false) _ p (Frozen.settled p _ _ fr1 hp)
          by_cases hemp : (getObj h q).catchCbs.length = 0
          · simpa [hemp] using fr1
          · simpa [hemp, retU] using frozen_trans p _ _ _ fr1 fr2
        | record s w =>
          have fr1 := frozen_setObj_ne p q h
            { getObj h q with st := .rejected, val := .record s w } hqp
          have fr2 := ih (.drain q false) _ p (Frozen.settled p _ _ fr1 hp)
          by_cases hemp : (getObj h q).catchCbs.length = 0
          · simpa [hemp] using fr1
          · simpa [hemp, retU] using frozen_trans p _ _ _ fr1 fr2
        | uncaughtError m =>
          have fr1 := frozen_setObj_ne p q h
            { getObj h q with st := .rejected, val := .uncaughtError m } hqp
          have fr2 := ih (.drain q false) _ p (Frozen.settled p _ _ fr1 hp)
          by_cases hemp : (getObj h q).catchCbs.length = 0
          · simpa [hemp] using fr1
          · simpa [hemp, retU] using frozen_trans p _ _ _ fr1 fr2
        | refError =>
          have fr1 := frozen_setObj_ne p q h
            { getObj h q with st := .rejected, val := .refError } hqp
          have fr2 := ih (.drain q false) _ p (Frozen.settled p _ _ fr1 hp)
          by_cases hemp : (getObj h q).catchCbs.length = 0
          · simpa [hemp] using fr1
          · simpa [hemp, retU] using frozen_trans p _ _ _ fr1 fr2
    | drain q isThen =>
      cases isThen with
      | true =>
        simp only [exec]
        rcases hl : (getObj h q).thenCbs with _ | ⟨cb, rest⟩
        · simpa [hl] using frozen_rfl p h
        · have fr1 := frozen_set_keep p q h { getObj h q with thenCbs := rest } rfl rfl
          rcases hE : exec f (.invokeCb cb (getObj h q).val)
              (setObj h q { getObj h q with thenCbs := rest }) with ⟨h1, r1⟩
          have fr2 : Frozen p h h1 := by
            have := ih (.invokeCb cb (getObj h q).val) _ p (Frozen.settled p _ _ fr1 hp)
            rw [hE] at this
            exact frozen_trans p _ _ _ fr1 this
          cases r1 with
          | ok v1 =>
            have fr3 := ih (.drain q true) h1 p (Frozen.settled p _ _ fr2 hp)
            simpa [hE, bindOk] using frozen_trans p _ _ _ fr2 fr3
          | thrown e1 => simpa [hE, bindOk] using fr2
          | nofuel => simpa [hE, bindOk] using fr2
      | false =>
        simp only [exec]
        rcases hl : (getObj h q).catchCbs with _ | ⟨cb, rest⟩
        · simpa [hl] using frozen_rfl p h
        · have fr1 := frozen_set_keep p q h { getObj h q with catchCbs := rest } rfl rfl
          rcases hE : exec f (.invokeCb cb (getObj h q).val)
              (setObj h q { getObj h q with catchCbs := rest }) with ⟨h1, r1⟩
          have fr2 : Frozen p h h1 := by
            have := ih (.invokeCb cb (getObj h q).val) _ p (Frozen.settled p _ _ fr1 hp)
            rw [hE] at this
            exact frozen_trans p _ _ _ fr1 this
          cases r1 with
          | ok v1 =>
            have fr3 := ih (.drain q false) h1 p (Frozen.settled p _ _ fr2 hp)
            simpa [hE, bindOk] using frozen_trans p _ _ _ fr2 fr3
          | thrown e1 => simpa [hE, bindOk] using fr2
          | nofuel => simpa [hE, bindOk] using fr2
    | invokeCb cb arg =>
      cases cb with
      | thenWrapper hnd tgt =>
        cases hnd with
        | none =>
          simp only [exec]
          simpa [retU] using ih (.success tgt arg) h p hp
        | some hd =>
          simp only [exec]
          rcases hE : exec f (.invokeH hd arg) h with ⟨h1, r1⟩
          have fr1 : Frozen p h h1 := by
            have := ih (.invokeH hd arg) h p hp
            rwa [hE] at this
          cases r1 with
          | ok v1 =>
            rcases hE2 : exec f (.success tgt v1) h1 with ⟨h2, r2⟩
            have fr2 : Frozen p h h2 := by
              have := ih (.success tgt v1) h1 p (Frozen.settled p _ _ fr1 hp)
              rw [hE2] at this
              exact frozen_trans p _ _ _ fr1 this
            cases r2 with
            | ok v2 => simpa [hE, hE2, bindOk, tryC, retU] using fr2
            | thrown e2 =>
              have fr3 := ih (.failed tgt e2) h2 p (Frozen.settled p _ _ fr2 hp)
              simpa [hE, hE2, bindOk, tryC, retU] using frozen_trans p _ _ _ fr2 fr3
            | nofuel => simpa [hE, hE2, bindOk, tryC, retU] using fr2
          | thrown e1 =>
            have fr3 := ih (.failed tgt e1) h1 p (Frozen.settled p _ _ fr1 hp)
            simpa [hE, bindOk, tryC, retU] using frozen_trans p _ _ _ fr1 fr3
          | nofuel => simpa [hE, bindOk, tryC, retU] using fr1
      | catchWrapper hnd tgt =>
        cases hnd with
        | none =>
          simp only [exec]
          simpa [retU] using ih (.failed tgt arg) h p hp
        | some hd =>
          simp only [exec]
          rcases hE : exec f (.invokeH hd arg) h with ⟨h1, r1⟩
          have fr1 : Frozen p h h1 := by
            have := ih (.invokeH hd arg) h p hp
            rwa [hE] at this
          cases r1 with
          | ok v1 =>
            rcases hE2 : exec f (.success tgt v1) h1 with ⟨h2, r2⟩
            have fr2 : Frozen p h h2 := by
              have := ih (.success tgt v1) h1 p (Frozen.settled p _ _ fr1 hp)
              rw [hE2] at this
              exact frozen_trans p _ _ _ fr1 this
            cases r2 with
            | ok v2 => simpa [hE, hE2, bindOk, tryC, retU] using fr2
            | thrown e2 =>
              have fr3 := ih (.failed tgt e2) h2 p (Frozen.settled p _ _ fr2 hp)
              simpa [hE, hE2, bindOk, tryC, retU] using frozen_trans p _ _ _ fr2 fr3
            | nofuel => simpa [hE, hE2, bindOk, tryC, retU] using fr2
          | thrown e1 =>
            have fr3 := ih (.failed tgt e1) h1 p (Frozen.settled p _ _ fr1 hp)
            simpa [hE, bindOk, tryC, retU] using frozen_trans p _ _ _ fr1 fr3
          | nofuel => simpa [hE, bindOk, tryC, retU] using fr1
    | invokeH hd arg =>
      have frl := frozen_setLog p h ((hd, arg) :: h.log)
      have hpl : (getObj { h with log := (hd, arg) :: h.log } p).st ≠ .pending := hp
      cases hd with
      | hconst v => exact frl
      | hident => exact frl
      | hthrow e => exact frl
      | huser t => exact frl
      | entryS q =>
        simp only [exec]
        have := ih (.success q arg) { h with log := (Handler.entryS q, arg) :: h.log } p hpl
        simpa [retU] using frozen_trans p _ _ _ frl this
      | entryF q =>
        simp only [exec]
        have := ih (.failed q arg) { h with log := (Handler.entryF q, arg) :: h.log } p hpl
        simpa [retU] using frozen_trans p _ _ _ frl this
      | allThen o i n =>
        simp only [exec]
        rcases hg : getComb { h with log := (Handler.allThen o i n, arg) :: h.log } o
          with ⟨rs, cnt⟩
        have frc : Frozen p h (setComb { h with log :=
            (Handler.allThen o i n, arg) :: h.log } o (setIdxGrow rs i arg, cnt + 1)) :=
          frozen_trans p _ _ _ frl (frozen_setComb p o _ _)
        by_cases hif : cnt + 1 = n
        · have := ih (.success o (.arr (setIdxGrow rs i arg))) _ p
            (Frozen.settled p _ _ frc hp)
          simpa [hg, hif, retU] using frozen_trans p _ _ _ frc this
        · simpa [hg, hif] using frc
      | allSettledThen o i n =>
        simp only [exec]
        rcases hg : getComb { h with log := (Handler.allSettledThen o i n, arg) :: h.log } o
          with ⟨rs, cnt⟩
        have frc : Frozen p h (setComb { h with log :=
            (Handler.allSettledThen o i n, arg) :: h.log } o
            (setIdxGrow rs i (.record "fulfilled" arg), cnt)) :=
          frozen_trans p _ _ _ frl (frozen_setComb p o _ _)
        by_cases hif : cnt = n
        · have := ih (.success o (.arr (setIdxGrow rs i (.record "fulfilled" arg)))) _ p
            (Frozen.settled p _ _ frc hp)
          simpa [hg, hif, retU] using frozen_trans p _ _ _ frc this
        · simpa [hg, hif] using frc
      | allSettledCatch o i n =>
        simp only [exec]
        rcases hg : getComb { h with log := (Handler.allSettledCatch o i n, arg) :: h.log } o
          with ⟨rs, cnt⟩
        have frc : Frozen p h (setComb { h with log :=
            (Handler.allSettledCatch o i n, arg) :: h.log } o
            (setIdxGrow rs i (.record "rejected" arg), cnt)) :=
          frozen_trans p _ _ _ frl (frozen_setComb p o _ _)
        by_cases hif : cnt = n
        · have := ih (.success o (.arr (setIdxGrow rs i (.record "rejected" arg)))) _ p
            (Frozen.settled p _ _ frc hp)
          simpa [hg, hif, retU] using frozen_trans p _ _ _ frc this
        · simpa [hg, hif] using frc
      | allCatch o =>
        simp only [exec]
        have := ih (.failed o arg) { h with log := (Handler.allCatch o, arg) :: h.log } p hpl
        simpa [retU] using frozen_trans p _ _ _ frl this
      | anyThen o =>
        simp only [exec]
        have := ih (.success o arg) { h with log := (Handler.anyThen o, arg) :: h.log } p hpl
        simpa [retU] using frozen_trans p _ _ _ frl this
      | anyCatch o i n =>
        simp only [exec]
        rcases hg : getComb { h with log := (Handler.anyCatch o i n, arg) :: h.log } o
          with ⟨rs, cnt⟩
        simpa [hg] using frozen_trans p _ _ _ frl (frozen_setComb p o _ (rs, cnt + 1))
    | thenC q t c =>
      have fra : Frozen p h { h with objs := h.objs ++ [{}] } := frozen_alloc p h hp
      have frw : Frozen p h (setObj { h with objs := h.objs ++ [{}] } q
          { getObj { h with objs := h.objs ++ [{}] } q with
            thenCbs := .thenWrapper t h.objs.length ::
              (getObj { h with objs := h.objs ++ [{}] } q).thenCbs,
            catchCbs := .catchWrapper c h.objs.length ::
              (getObj { h with objs := h.objs ++ [{}] } q).catchCbs }) :=
        frozen_trans p _ _ _ fra (frozen_set_keep p q _ _ rfl rfl)
      have hstep : ∀ (x : Heap × Outcome), Frozen p h x.1 →
          Frozen p h (bindOk (tryC x fun h2 e => exec f (.failed h.objs.length e) h2)
            (fun h2 _ => (h2, Outcome.ok (.prom h.objs.length)))).1 := by
        intro x hx
        rcases x with ⟨hh, rr⟩
        cases rr with
        | ok v => simpa [bindOk, tryC] using hx
        | thrown e =>
          rcases hE : exec f (.failed h.objs.length e) hh with ⟨h2, r2⟩
          have fr2 : Frozen p h h2 := by
            have := ih (.failed h.objs.length e) hh p (Frozen.settled p _ _ hx hp)
            rw [hE] at this
            exact frozen_trans p _ _ _ hx this
          cases r2 with
          | ok v2 => simpa [bindOk, tryC, hE] using fr2
          | thrown e2 => simpa [bindOk, tryC, hE] using fr2
          | nofuel => simpa [bindOk, tryC, hE] using fr2
        | nofuel => simpa [bindOk, tryC] using hx
      simp only [exec, allocP]
      cases hs2 : (getObj (setObj { h with objs := h.objs ++ [{}] } q
          { getObj { h with objs := h.objs ++ [{}] } q with
            thenCbs := .thenWrapper t h.objs.length ::
              (getObj { h with objs := h.objs ++ [{}] } q).thenCbs,
            catchCbs := .catchWrapper c h.objs.length ::
              (getObj { h with objs := h.objs ++ [{}] } q).catchCbs }) q).st with
        | pending => simpa [hs2] using hstep (_, .ok .undef) frw
        | fulfilled =>
          rcases hE : exec f (.drain q true) (setObj { h with objs := h.objs ++ [{}] } q
              { getObj { h with objs := h.objs ++ [{}] } q with
                thenCbs := .thenWrapper t h.objs.length ::
                  (getObj { h with objs := h.objs ++ [{}] } q).thenCbs,
                catchCbs := .catchWrapper c h.objs.length ::
                  (getObj { h with objs := h.objs ++ [{}] } q).catchCbs }) with ⟨h3, r3⟩
          have fr3 : Frozen p h h3 := by
            have := ih (.drain q true) _ p (Frozen.settled p _ _ frw hp)
            rw [hE] at this
            exact frozen_trans p _ _ _ frw this
          simpa [hs2, hE] using hstep (h3, r3) fr3
        | rejected =>
          rcases hE : exec f (.drain q false) (setObj { h with objs := h.objs ++ [{}] } q
              { getObj { h with objs := h.objs ++ [{}] } q with
                thenCbs := .thenWrapper t h.objs.length ::
                  (getObj { h with objs := h.objs ++ [{}] } q).thenCbs,
                catchCbs := .catchWrapper c h.objs.length ::
                  (getObj { h with objs := h.objs ++ [{}] } q).catchCbs }) with ⟨h3, r3⟩
          have fr3 : Frozen p h h3 := by
            have := ih (.drain q false) _ p (Frozen.settled p _ _ frw hp)
            rw [hE] at this
            exact frozen_trans p _ _ _ frw this
          simpa [hs2, hE] using hstep (h3, r3) fr3
    | construct r =>
      have fra : Frozen p h { h with objs := h.objs ++ [{}] } := frozen_alloc p h hp
      have hstep : ∀ (x : Heap × Outcome), Frozen p h x.1 →
          Frozen p h (bindOk (tryC x fun h2 e => exec f (.failed h.objs.length e) h2)
            (fun h2 _ => (h2, Outcome.ok (.prom h.objs.length)))).1 := by
        intro x hx
        rcases x with ⟨hh, rr⟩
        cases rr with
        | ok v => simpa [bindOk, tryC] using hx
        | thrown e =>
          rcases hE : exec f (.failed h.objs.length e) hh with ⟨h2, r2⟩
          have fr2 : Frozen p h h2 := by
            have := ih (.failed h.objs.length e) hh p (Frozen.settled p _ _ hx hp)
            rw [hE] at this
            exact frozen_trans p _ _ _ hx this
          cases r2 with
          | ok v2 => simpa [bindOk, tryC, hE] using fr2
          | thrown e2 => simpa [bindOk, tryC, hE] using fr2
          | nofuel => simpa [bindOk, tryC, hE] using fr2
        | nofuel => simpa [bindOk, tryC] using hx
      simp only [exec, allocP]
      cases r with
      | rwith v =>
        rcases hE : exec f (.success h.objs.length v) { h with objs := h.objs ++ [{}] }
          with ⟨h1, r1⟩
        have fr1 : Frozen p h h1 := by
          have := ih (.success h.objs.length v) _ p (Frozen.settled p _ _ fra hp)
          rw [hE] at this
          exact frozen_trans p _ _ _ fra this
        simpa [hE] using hstep (h1, r1) fr1
      | rejwith e =>
        rcases hE : exec f (.failed h.objs.length e) { h with objs := h.objs ++ [{}] }
          with ⟨h1, r1⟩
        have fr1 : Frozen p h h1 := by
          have := ih (.failed h.objs.length e) _ p (Frozen.settled p _ _ fra hp)
          rw [hE] at this
          exact frozen_trans p _ _ _ fra this
        simpa [hE] using hstep (h1, r1) fr1
      | rthrow e =>
        simpa using hstep ({ h with objs := h.objs ++ [{}] }, .thrown e) fra
      | rnothing =>
        simpa using hstep ({ h with objs := h.objs ++ [{}] }, .ok .undef) fra
    | comb k ps =>
      have fra : Frozen p h { h with objs := h.objs ++ [{}] } := frozen_alloc p h hp
      have hstep : ∀ (x : Heap × Outcome), Frozen p h x.1 →
          Frozen p h (bindOk (tryC x fun h2 e => exec f (.failed h.objs.length e) h2)
            (fun h2 _ => (h2, Outcome.ok (.prom h.objs.length)))).1 := by
        intro x hx
        rcases x with ⟨hh, rr⟩
        cases rr with
        | ok v => simpa [bindOk, tryC] using hx
        | thrown e =>
          rcases hE : exec f (.failed h.objs.length e) hh with ⟨h2, r2⟩
          have fr2 : Frozen p h h2 := by
            have := ih (.failed h.objs.length e) hh p (Frozen.settled p _ _ hx hp)
            rw [hE] at this
            exact frozen_trans p _ _ _ hx this
          cases r2 with
          | ok v2 => simpa [bindOk, tryC, hE] using fr2
          | thrown e2 => simpa [bindOk, tryC, hE] using fr2
          | nofuel => simpa [bindOk, tryC, hE] using fr2
        | nofuel => simpa [bindOk, tryC] using hx
      have hloop : ∀ (k2 : CombKind) (h0 : Heap), Frozen p h h0 →
          Frozen p h (exec f (.combL k2 h.objs.length ps.length 0 ps) h0).1 := by
        intro k2 h0 hx
        have := ih (.combL k2 h.objs.length ps.length 0 ps) h0 p
          (Frozen.settled p _ _ hx hp)
        exact frozen_trans p _ _ _ hx this
      simp only [exec, allocP]
      cases k with
      | allK =>
        rcases hE : exec f (.combL .allK h.objs.length ps.length 0 ps)
            (setComb { h with objs := h.objs ++ [{}] } h.objs.length ([], 0))
          with ⟨h1, r1⟩
        have fr1 : Frozen p h h1 := by
          have := hloop .allK _ (frozen_trans p _ _ _ fra (frozen_setComb p h.objs.length { h with objs := h.objs ++ [{}] } ([], 0)))
          rwa [hE] at this
        simpa [hE] using hstep (h1, r1) fr1
      | allSettledK =>
        rcases hE : exec f (.combL .allSettledK h.objs.length ps.length 0 ps)
            (setComb { h with objs := h.objs ++ [{}] } h.objs.length ([], 0))
          with ⟨h1, r1⟩
        have fr1 : Frozen p h h1 := by
          have := hloop .allSettledK _ (frozen_trans p _ _ _ fra (frozen_setComb p h.objs.length { h with objs := h.objs ++ [{}] } ([], 0)))
          rwa [hE] at this
        simpa [hE] using hstep (h1, r1) fr1
      | anyK =>
        rcases hE : exec f (.combL .anyK h.objs.length ps.length 0 ps)
            (setComb { h with objs := h.objs ++ [{}] } h.objs.length ([], 0))
          with ⟨h1, r1⟩
        have fr1 : Frozen p h h1 := by
          have := hloop .anyK _ (frozen_trans p _ _ _ fra (frozen_setComb p h.objs.length { h with objs := h.objs ++ [{}] } ([], 0)))
          rwa [hE] at this
        simpa [hE] using hstep (h1, r1) fr1
      | raceK =>
        rcases hE : exec f (.combL .raceK h.objs.length ps.length 0 ps)
            { h with objs := h.objs ++ [{}] } with ⟨h1, r1⟩
        have fr1 : Frozen p h h1 := by
          have := hloop .raceK _ fra
          rwa [hE] at this
        simpa [hE] using hstep (h1, r1) fr1
    | combL k outer n i ps =>
      cases ps with
      | nil => simpa [exec] using frozen_rfl p h
      | cons p0 rest =>
        have hcont : ∀ (x : Heap × Outcome), Frozen p h x.1 →
            Frozen p h (bindOk x (fun h2 _ => exec f (.combL k outer n (i + 1) rest) h2)).1 := by
          intro x hx
          rcases x with ⟨hh, rr⟩
          cases rr with
          | ok v =>
            have := ih (.combL k outer n (i + 1) rest) hh p (Frozen.settled p _ _ hx hp)
            simpa [bindOk] using frozen_trans p _ _ _ hx this
          | thrown e => simpa [bindOk] using hx
          | nofuel => simpa [bindOk] using hx
        have hreg : ∀ (t1 c2 : Option Handler) (h0 : Heap), Frozen p h h0 →
            Frozen p h (bindOk (exec f (.thenC p0 t1 none) h0) (fun h2 v =>
              match v with
              | .prom child => exec f (.thenC child none c2) h2
              | v => (h2, .ok v))).1 := by
          intro t1 c2 h0 hx
          rcases hE : exec f (.thenC p0 t1 none) h0 with ⟨h1, r1⟩
          have fr1 : Frozen p h h1 := by
            have := ih (.thenC p0 t1 none) h0 p (Frozen.settled p _ _ hx hp)
            rw [hE] at this
            exact frozen_trans p _ _ _ hx this
          cases r1 with
          | ok v =>
            cases v with
            | prom child =>
              have := ih (.thenC child none c2) h1 p (Frozen.settled p _ _ fr1 hp)
              simpa [hE, bindOk] using frozen_trans p _ _ _ fr1 this
            | undef => simpa [hE, bindOk] using fr1
            | num n2 => simpa [hE, bindOk] using fr1
            | str s2 => simpa [hE, bindOk] using fr1
            | arr xs2 => simpa [hE, bindOk] using fr1
            | record s2 w2 => simpa [hE, bindOk] using fr1
            | uncaughtError m2 => simpa [hE, bindOk] using fr1
            | refError => simpa [hE, bindOk] using fr1
          | thrown e => simpa [hE, bindOk] using fr1
          | nofuel => simpa [hE, bindOk] using fr1
        cases k with
        | allK =>
          simp only [exec]
          exact hcont _ (hreg (some (.allThen outer i n)) (some (.allCatch outer)) h
            (frozen_rfl p h))
        | raceK =>
          simp only [exec]
          exact hcont _ (hreg (some (.entryS outer)) (some (.entryF outer)) h
            (frozen_rfl p h))
        | anyK =>
          simp only [exec]
          exact hcont _ (hreg (some (.anyThen outer)) (some (.anyCatch outer i n)) h
            (frozen_rfl p h))
        | allSettledK =>
          simp only [exec]
          rcases hg : getComb h outer with ⟨rs, cnt⟩
          simpa [hg] using hcont _ (hreg (some (.allSettledThen outer i n))
            (some (.allSettledCatch outer i n)) (setComb h outer (rs, cnt + 1))
            (frozen_setComb p outer h (rs, cnt + 1)))

/- C7, general input arity: the comb-state update performed by all's
   fulfilment closure (`results[index] = value; resultCount += 1`), as a pure
   step on the captured (results, resultCount) pair. -/
def allStep (vals : Nat → JSVal) (acc : List JSVal × Nat) (i : Nat) :
    List JSVal × Nat :=
  (setIdxGrow acc.1 i (vals i), acc.2 + 1)

theorem setIdxGrow_length (xs : List JSVal) (i : Nat) (v : JSVal) :
    (setIdxGrow xs i v).length = max xs.length (i + 1) := by
  simp only [setIdxGrow]
  split
  · simp only [List.length_set]
    omega
  · simp only [List.length_append, List.length_replicate, List.length_singleton]
    omega

theorem setIdxGrow_get (xs : List JSVal) (i : Nat) (v : JSVal) (j : Nat) :
    (setIdxGrow xs i v)[j]? =
      if j = i then some v
      else if j < xs.length then xs[j]?
      else if j < i then some .undef
      else none := by
  simp only [setIdxGrow]
  split
  · rename_i hilt
    rw [List.getElem?_set]
    rcases eq_or_ne j i with hji | hji
    · subst hji
      simp [hilt]
    · rw [if_neg (fun hh => hji hh.symm), if_neg hji]
      rcases Nat.lt_or_ge j xs.length with hjx | hjx
      · rw [if_pos hjx]
      · rw [List.getElem?_eq_none hjx, if_neg (by omega : ¬ j < xs.length),
          if_neg (by omega : ¬ j < i)]
  · rename_i hige
    have hige2 : xs.length ≤ i := by omega
    have hlen2 : (xs ++ List.replicate (i - xs.length) JSVal.undef).length = i := by
      simp
      omega
    rcases Nat.lt_or_ge j i with hji | hji
    · rw [List.getElem?_append_left (by rw [hlen2]; exact hji)]
      rcases Nat.lt_or_ge j xs.length with hjx | hjx
      · rw [List.getElem?_append_left hjx, if_neg (by omega : ¬ j = i), if_pos hjx]
      · rw [List.getElem?_append_right hjx, List.getElem?_replicate,
          if_pos (by omega : j - xs.length < i - xs.length),
          if_neg (by omega : ¬ j = i), if_neg (by omega : ¬ j < xs.length),
          if_pos hji]
    · rcases eq_or_ne j i with hje | hje
      · subst hje
        have hcl := List.getElem?_concat_length
          (xs ++ List.replicate (j - xs.length) JSVal.undef) v
        rw [hlen2] at hcl
        rw [hcl, if_pos rfl]
      · rw [List.getElem?_eq_none (by simp; omega), if_neg hje,
          if_neg (by omega : ¬ j < xs.length), if_neg (by omega : ¬ j < i)]

/- Invariant carried through the fold of all's per-input fulfilment steps:
   after processing the index multiset `done`, the counter equals the number
   of processed inputs, and the results list holds `vals j` exactly at the
   processed indices (and the placeholder `undef` at unprocessed slots the
   growth has already touched). -/
def allInv (n : Nat) (vals : Nat → JSVal) (done : List Nat)
    (acc : List JSVal × Nat) : Prop :=
  acc.2 = done.length ∧ acc.1.length ≤ n ∧
  (∀ j ∈ done, j < acc.1.length) ∧
  (∀ j, j < acc.1.length →
    acc.1[j]? = some (if j ∈ done then vals j else .undef))

theorem allFold_inv (n : Nat) (vals : Nat → JSVal) :
    ∀ (rest done : List Nat) (acc : List JSVal × Nat),
      (done ++ rest).Nodup →
      (∀ j ∈ rest, j < n) →
      allInv n vals done acc →
      allInv n vals (done ++ rest) (rest.foldl (allStep vals) acc) := by
  intro rest
  induction rest with
  | nil => intro done acc _ _ hinv; simpa using hinv
  | cons i rest ih =>
    intro done acc hnd hbnd hinv
    have hin : i < n := hbnd i (List.mem_cons_self i rest)
    have hinot : i ∉ done := by
      intro hcon
      rcases List.nodup_append.mp hnd with ⟨_, _, hdisj⟩
      exact hdisj hcon (List.mem_cons_self i rest)
    have step : allInv n vals (done ++ [i]) (allStep vals acc i) := by
      obtain ⟨h2, hle, hmem, hget⟩ := hinv
      refine ⟨by simp [allStep, h2], ?_, ?_, ?_⟩
      · simp only [allStep, setIdxGrow_length]
        omega
      · intro j hj
        simp only [allStep, setIdxGrow_length]
        rcases List.mem_append.mp hj with hjd | hji
        · have := hmem j hjd
          omega
        · simp only [List.mem_singleton] at hji
          omega
      · intro j hj
        simp only [allStep] at hj ⊢
        rw [setIdxGrow_get]
        rcases eq_or_ne j i with hje | hje
        · subst hje
          rw [if_pos rfl, if_pos (by simp)]
        · rw [if_neg hje]
          rcases Nat.lt_or_ge j acc.1.length with hjl | hjl
          · rw [if_pos hjl, hget j hjl]
            by_cases hjd : j ∈ done
            · rw [if_pos hjd, if_pos (by simp [hjd])]
            · rw [if_neg hjd, if_neg (by simp [hjd, hje])]
          · have hjnd : j ∉ done := fun hc => absurd (hmem j hc) (by omega)
            rw [setIdxGrow_length] at hj
            rw [if_neg (by omega), if_pos (by omega),
              if_neg (by simp [hjnd, hje])]
    have happ : done ++ i :: rest = (done ++ [i]) ++ rest := by simp
    rw [List.foldl_cons, happ]
    exact ih (done ++ [i]) (allStep vals acc i) (by rw [← happ]; exact hnd)
      (fun j hj => hbnd j (List.mem_cons_of_mem i hj)) step

theorem all_results_order_independent (n : Nat) (vals : Nat → JSVal)
    (ord : List Nat) (hperm : ord.Perm (List.range n)) :
    ord.foldl (allStep vals) ([], 0) = ((List.range n).map vals, n) := by
  have hnd : ord.Nodup := hperm.nodup_iff.mpr (List.nodup_range n)
  have hmem : ∀ j, j ∈ ord ↔ j < n := fun j => by
    rw [hperm.mem_iff, List.mem_range]
  have hinv := allFold_inv n vals ord [] ([], 0) (by simpa using hnd)
    (fun j hj => (hmem j).mp hj) ⟨rfl, Nat.zero_le n, by simp, by simp⟩
  simp only [List.nil_append] at hinv
  obtain ⟨h2, hle, hmemlt, hget⟩ := hinv
  have hlen : (ord.foldl (allStep vals) ([], 0)).1.length = n := by
    refine Nat.le_antisymm hle ?_
    rcases n with _ | m
    · exact Nat.zero_le _
    · have hm : m ∈ ord := (hmem m).mpr (Nat.lt_succ_self m)
      have := hmemlt m hm
      omega
  refine Prod.ext ?_ ?_
  · apply List.ext_getElem?
    intro j
    rcases Nat.lt_or_ge j n with hj | hj
    · rw [hget j (by omega), if_pos ((hmem j).mpr hj),
        List.getElem?_map, List.getElem?_range hj]
      rfl
    · rw [List.getElem?_eq_none (by omega),
        List.getElem?_eq_none (by simp; omega)]
  · simpa [hperm.length_eq] using h2

set_option maxHeartbeats 2000000 in
/-- C7: for all([F0, F1, ...]): (a) at the three-input instance (with
arbitrary values) — in ANY of the six possible settlement orders — the
returned future (id 3) fulfills with the sequence of the three values,
index-aligned with the inputs, not with settlement order; (b) if input 1
rejects first with any non-future error e, the returned future immediately
rejects with exactly e, the later fulfilment of the other two inputs leaves
its state and value unchanged, and no interpreter call whatsoever (any
call, any fuel) can ever change them again (short-circuit, first error
wins); (c) for EVERY input arity n and every settlement order (permutation
of the n indices), the aggregation fold performed by all's per-input
fulfilment closures yields the index-aligned value sequence and full
counter, so index alignment is order-independent at every arity. -/
theorem C7_all_joins_and_short_circuits :
    (∀ (a0 a1 a2 : Int) (ord : List Nat), ord ∈ c7Perms →
      (getObj (c7RunSucc (c7Vals a0 a1 a2) ord c7Pre) 3).st = .fulfilled ∧
      (getObj (c7RunSucc (c7Vals a0 a1 a2) ord c7Pre) 3).val =
        .arr [.num a0, .num a1, .num a2]) ∧
    (∀ (e : JSVal), e.isProm = false → ∀ (a0 a2 : Int),
      (getObj (MyPromise.onFailed 40 1 e c7Pre).1 3).st = .rejected ∧
      (getObj (MyPromise.onFailed 40 1 e c7Pre).1 3).val = e ∧
      (getObj (c7RunSucc (c7Vals a0 0 a2) [0, 2]
          (MyPromise.onFailed 40 1 e c7Pre).1) 3).st = .rejected ∧
      (getObj (c7RunSucc (c7Vals a0 0 a2) [0, 2]
          (MyPromise.onFailed 40 1 e c7Pre).1) 3).val = e ∧
      (∀ (f2 : Nat) (c : Call),
        (getObj (exec f2 c (c7RunSucc (c7Vals a0 0 a2) [0, 2]
            (MyPromise.onFailed 40 1 e c7Pre).1)).1 3).st = .rejected ∧
        (getObj (exec f2 c (c7RunSucc (c7Vals a0 0 a2) [0, 2]
            (MyPromise.onFailed 40 1 e c7Pre).1)).1 3).val = e)) ∧
    (∀ (n : Nat) (vals : Nat → JSVal) (ord : List Nat),
      ord.Perm (List.range n) →
      ord.foldl (allStep vals) ([], 0) = ((List.range n).map vals, n)) := by
  refine ⟨?_, ?_, ?_⟩
  · intro a0 a1 a2 ord hord
    simp only [c7Perms, List.mem_cons, List.not_mem_nil, or_false] at hord
    rcases hord with h | h | h | h | h | h <;> subst h <;>
      simp [c7RunSucc, c7Vals, c7Pre, MyPromise.onSuccess, MyPromise.all,
        MyPromise.construct, exec, getObj, setObj, allocP, getComb, setComb,
        setIdxGrow, unitize, retU, bindOk, tryC, emptyHeap, List.foldl]
  · intro e he a0 a2
    have base : (getObj (MyPromise.onFailed 40 1 e c7Pre).1 3).st = .rejected ∧
        (getObj (MyPromise.onFailed 40 1 e c7Pre).1 3).val = e ∧
        (getObj (c7RunSucc (c7Vals a0 0 a2) [0, 2]
            (MyPromise.onFailed 40 1 e c7Pre).1) 3).st = .rejected ∧
        (getObj (c7RunSucc (c7Vals a0 0 a2) [0, 2]
            (MyPromise.onFailed 40 1 e c7Pre).1) 3).val = e := by
      cases e <;>
        simp_all [c7RunSucc, c7Vals, c7Pre, MyPromise.onSuccess,
          MyPromise.onFailed, MyPromise.all, MyPromise.construct, exec, getObj,
          setObj, allocP, getComb, setComb, setIdxGrow, unitize, retU, bindOk,
          tryC, emptyHeap, List.foldl, JSVal.isProm]
    refine ⟨base.1, base.2.1, base.2.2.1, base.2.2.2, ?_⟩
    intro f2 c
    have hfr := exec_frozen f2 c
      (c7RunSucc (c7Vals a0 0 a2) [0, 2] (MyPromise.onFailed 40 1 e c7Pre).1) 3
      (by rw [base.2.2.1]; intro hc; cases hc)
    exact ⟨hfr.1.trans base.2.2.1, hfr.2.trans base.2.2.2⟩
  · intro n vals ord hperm
    exact all_results_order_independent n vals ord hperm

/-- Witness for C7: settlement order [1, 2, 0] with values 10, 20, 30; the
short-circuit part with error "boom" (including immunity under one concrete
further call); and order-independence of the fold at arity 2 with order
[1, 0]. -/
theorem C7_all_joins_and_short_circuits_witness :
    ([1, 2, 0] ∈ c7Perms ∧
      (getObj (c7RunSucc (c7Vals 10 20 30) [1, 2, 0] c7Pre) 3).val =
        .arr [.num 10, .num 20, .num 30]) ∧
    ((JSVal.str "boom").isProm = false ∧
      (getObj (MyPromise.onFailed 40 1 (.str "boom") c7Pre).1 3).val =
        .str "boom" ∧
      (getObj (exec 5 (.drain 0 true) (c7RunSucc (c7Vals 7 0 9) [0, 2]
          (MyPromise.onFailed 40 1 (.str "boom") c7Pre).1)).1 3).st =
        .rejected) ∧
    ([1, 0].Perm (List.range 2) ∧
      [1, 0].foldl (allStep (fun i => .num (i : Int))) ([], 0) =
        ((List.range 2).map (fun i => .num (i : Int)), 2)) :=
  ⟨⟨by simp [c7Perms],
    (C7_all_joins_and_short_circuits.1 10 20 30 [1, 2, 0] (by simp [c7Perms])).2⟩,
   ⟨rfl, (C7_all_joins_and_short_circuits.2.1 (.str "boom") rfl 0 0).2.1,
    (C7_all_joins_and_short_circuits.2.1 (.str "boom") rfl 7 9).2.2.2.2
      5 (.drain 0 true) |>.1⟩,
   ⟨by decide,
    C7_all_joins_and_short_circuits.2.2 2 (fun i => .num (i : Int)) [1, 0]
      (by decide)⟩⟩
